import Mathlib

/-!
Verification of the zapret-manager strategy-testing core against its
natural-language specification.

The Python sources are shallowly embedded: pure functions become Lean
functions, module-level configuration constants become explicit parameters,
and the concurrent parts (probe rounds fired through a thread pool, the
async process supervisor) are modelled by explicit completion/event
schedules.  Timings (Python floats holding measured seconds) are modelled
as rationals.  String operations mirror Python semantics and are defined
through the character list underlying `String`, so proofs can proceed by
list induction.
-/

/-! ## Python-style string primitives -/

/-- Python `needle in hay` on character lists: `needle` occurs as a
contiguous sublist of `hay`. -/
def subList : List Char → List Char → Bool
  | needle, [] => needle.isEmpty
  | needle, c :: t => needle.isPrefixOf (c :: t) || subList needle t

/-- Python `needle in hay` for strings (substring test). -/
def strContains (hay needle : String) : Bool :=
  subList needle.data hay.data

/-- Python `s.startswith(pre)`. -/
def startsWithPy (s pre : String) : Bool :=
  pre.data.isPrefixOf s.data

/-- The whitespace characters stripped by Python `str.strip()`. -/
def isSpacePy (c : Char) : Bool :=
  c == ' ' || c == '\t' || c == '\n' || c == '\r' || c == '\x0b' || c == '\x0c'

/-- Python `s.strip()`. -/
def stripPy (s : String) : String :=
  String.mk (((s.data.dropWhile isSpacePy).reverse.dropWhile isSpacePy).reverse)

/-- Python `s.lower()` (ASCII range; all strings handled here are ASCII). -/
def lowerPy (s : String) : String :=
  String.mk (s.data.map Char.toLower)

/-- Python `s.strip(c)` for a single character `c`. -/
def stripCharPy (c : Char) (s : String) : String :=
  String.mk (((s.data.dropWhile (· == c)).reverse.dropWhile (· == c)).reverse)

/-- Helper for `splitCharPy`: split a character list on a separator. -/
def splitListChar (c : Char) : List Char → List (List Char)
  | [] => [[]]
  | x :: t =>
    let r := splitListChar c t
    if x == c then [] :: r
    else
      match r with
      | h :: rs => (x :: h) :: rs
      | [] => [[x]]

/-- Python `s.split(c)` for a one-character separator (so `""` yields
`[""]`, like Python). -/
def splitCharPy (c : Char) (s : String) : List String :=
  (splitListChar c s.data).map String.mk

/-- Python `sep.join(parts)`. -/
def joinWithPy (sep : String) : List String → String
  | [] => ""
  | [s] => s
  | s :: rest => s ++ sep ++ joinWithPy sep rest

/-- Python `s.split(sep, 1)[0]` for `sep = c`: the text before the first
occurrence of `c` (the whole string when `c` is absent). -/
def beforeCharPy (c : Char) (s : String) : String :=
  String.mk (s.data.takeWhile (· ≠ c))

/-- Python `s.split(c, 1)[1]`: the text after the first occurrence of `c`
(meaningful when `c` occurs in `s`). -/
def afterCharPy (c : Char) (s : String) : String :=
  String.mk ((s.data.dropWhile (· ≠ c)).drop 1)

/-- A single-quote character as a string (used in diagnostic messages). -/
def squote : String := String.mk [Char.ofNat 39]

/-! ## `network_utils.HttpResponseValidator` -/

/-- Characters matched by the `[\d\.]` class of the status-line regex. -/
def digitOrDot (c : Char) : Bool := c.isDigit || c == '.'

/-- `int()` of a run of decimal digits. -/
def digitsToNat (ds : List Char) : Nat :=
  ds.foldl (fun a c => a * 10 + (c.toNat - 48)) 0

/-- One anchored attempt of the status regex `HTTP/[\d\.]+\s+(\d+)` at the
head of the list.  (The regex's greedy matching never needs backtracking
here: each `+`-group is followed by a character class disjoint from its
own, so greedy runs are exact.) -/
def matchStatusAt (cs : List Char) : Option Nat :=
  match cs with
  | 'H' :: 'T' :: 'T' :: 'P' :: '/' :: rest =>
    let v := rest.takeWhile digitOrDot
    let rest1 := rest.dropWhile digitOrDot
    if v.isEmpty then none
    else
      let ws := rest1.takeWhile isSpacePy
      let rest2 := rest1.dropWhile isSpacePy
      if ws.isEmpty then none
      else
        let ds := rest2.takeWhile Char.isDigit
        if ds.isEmpty then none else some (digitsToNat ds)
  | _ => none

/-- `re.search` of the status regex: first position where it matches. -/
def searchStatus : List Char → Option Nat
  | [] => none
  | c :: t =>
    match matchStatusAt (c :: t) with
    | some n => some n
    | none => searchStatus t

/-- `HttpResponseValidator._get_root_domain`: last two dot-separated parts. -/
def getRootDomain (domain : String) : String :=
  let parts := splitCharPy '.' domain
  if 2 ≤ parts.length then joinWithPy "." (parts.drop (parts.length - 2)) else domain

/-- The `location:` header-name prefix matched by `_LOCATION_RE`
(case-insensitively, anchored at a line start). -/
def locMarker : String := "location:"

/-- `re.search` of `^location:\s*(.+)` (IGNORECASE | MULTILINE) over the
lines of the headers, returning the raw capture region (the remainder of
the first `location:` line; the caller strips and lowercases it, which
coincides with stripping the regex capture).  The embedding treats the
match as line-local. -/
def findLocationRest : List String → Option String
  | [] => none
  | line :: rest =>
    if startsWithPy (lowerPy line) locMarker && locMarker.length < line.length then
      some (String.mk (line.data.drop locMarker.length))
    else findLocationRest rest

/-- `HttpResponseValidator._check_redirect`. -/
def checkRedirect (domain headers : String) : Option String :=
  match findLocationRest (splitCharPy '\n' headers) with
  | none => none
  | some grp =>
    let location := lowerPy (stripPy grp)
    if !(startsWithPy location "http://" || startsWithPy location "https://") then none
    else
      let baseDomain := beforeCharPy '/' domain
      let rootDomain := getRootDomain baseDomain
      if !(strContains location rootDomain) then
        some ("Suspicious redirect to: " ++ location)
      else none

/-- `HttpResponseValidator.validate`.  The module constant
`REDIRECT_AS_SUCCESS` is lifted to the explicit parameter
`redirectAsSuccess` (its configured value is `false`). -/
def validate (redirectAsSuccess : Bool) (domain headers : String) : Option String :=
  if headers = "" then some "Empty response from server"
  else
    match searchStatus headers.data with
    | none => some "Invalid HTTP status line"
    | some status =>
      if status = 400 then some "HTTP 400: Bad Request. Server likely receives fakes."
      else if 300 ≤ status ∧ status < 400 then
        if redirectAsSuccess then none else checkRedirect domain headers
      else none

/-- `config.REDIRECT_AS_SUCCESS`. -/
def REDIRECT_AS_SUCCESS : Bool := false

/-! ## `blockchecker.StrategyTester`

`_test_with_command` runs `repeats` rounds; each round submits one probe
per domain to a thread pool and consumes the results in completion order
(`as_completed`).  The embedding therefore takes, for every round index,
the list of probe results in their completion order, and folds over it
exactly as the Python loop does.  The `running_winws` context manager is
not present under `src/`; per the specification it raises a
`RuntimeError` when `ProcessSupervisor.start` fails (the evaluation then
fails immediately with the captured stderr attached) and guarantees
`stop()` on every exit path; its start outcome is the `startOk` /
`startErrMsg` / `winwsStderr` parameters below. -/

/-- `network_utils.CurlTestResult`. -/
structure CurlTestResult where
  success : Bool
  returnCode : Int
  output : String
  timeTaken : ℚ
  domain : String
deriving DecidableEq

/-- `blockchecker.StrategyTestResult`. -/
structure StrategyTestResult where
  success : Bool
  avgTime : ℚ := -1
  curlOutput : String := ""
  winwsStderr : String := ""
deriving DecidableEq

/-- The failure diagnostic built at the first failing probe of a round:
`f"Failed on '{result.domain}': {result.output}"` when more than one
domain is under test, else the probe's own output. -/
def failOutput (multi : Bool) (r : CurlTestResult) : String :=
  if multi then "Failed on " ++ squote ++ r.domain ++ squote ++ ": " ++ r.output
  else r.output

/-- One round's `as_completed` loop: accumulate elapsed times, stop at
the first failing result. -/
def runRound (multi : Bool) : List CurlTestResult → ℚ → Except String ℚ
  | [], acc => Except.ok acc
  | r :: rest, acc =>
    if r.success then runRound multi rest (acc + r.timeTaken)
    else Except.error (failOutput multi r)

/-- The outer `for repeat_idx in range(repeats)` loop, starting at round
index `i` with `n` rounds left and accumulated time `acc`. -/
def runRounds (multi : Bool) (rounds : Nat → List CurlTestResult) :
    Nat → Nat → ℚ → Except String ℚ
  | _, 0, acc => Except.ok acc
  | i, Nat.succ k, acc =>
    match runRound multi (rounds i) acc with
    | Except.error e => Except.error e
    | Except.ok acc2 => runRounds multi rounds (i + 1) k acc2

/-- `StrategyTester._test_with_command`.  `rounds i` is the completion
order of round `i`'s probe results. -/
def testWithCommand (domains : List String) (repeats : Nat)
    (startOk : Bool) (winwsStderr startErrMsg : String)
    (rounds : Nat → List CurlTestResult) : StrategyTestResult :=
  let multi := 1 < domains.length
  let totalTests : Nat := domains.length * repeats
  if !startOk then
    { success := false, curlOutput := startErrMsg, winwsStderr := winwsStderr }
  else
    match runRounds multi rounds 0 repeats 0 with
    | Except.error out => { success := false, curlOutput := out }
    | Except.ok total =>
      { success := true
        avgTime := if 0 < totalTests then total / (totalTests : ℚ) else 0 }

/-- Sum of the elapsed times of a list of probe results. -/
def sumTimes (l : List CurlTestResult) : ℚ :=
  (l.map (·.timeTaken)).sum

/-- All measurements of a run: the rounds' completion lists, concatenated. -/
def allResults (rounds : Nat → List CurlTestResult) (repeats : Nat) :
    List CurlTestResult :=
  ((List.range repeats).map rounds).flatten

/-- The fastest (minimal) timing of a non-empty timing list. -/
def minTimeOf : List ℚ → ℚ
  | [] => 0
  | t :: rest => rest.foldl min t

/-- Modelled from the spec: the aggregation the specification describes
for `repeats > 1` — keep only the fastest timing per target and average
those.  `perTarget` lists, per target, its timings over the repeats.
This definition follows the specification's words, for comparison with
`testWithCommand`; it is not in the source. -/
def specKeepFastestAvg (perTarget : List (List ℚ)) : ℚ :=
  (perTarget.map minTimeOf).sum / (perTarget.length : ℚ)

/-! ## `winws_manager._AsyncWinWSManager`

The supervisor is event-driven: two stream readers race to set a single
outcome.  The embedding replaces the two concurrent readers by the merged
list of stream lines in the order they were observed before
`wait_for(outcome_event, timeout)` returned — a timeout is the case where
that list contains no triggering line. -/

/-- A line observed on one of the child process's streams. -/
inductive StreamEvent where
  | out (line : String)
  | err (line : String)
deriving DecidableEq

/-- The supervisor outcome set by `_read_stream`. -/
inductive SupOutcome where
  | ready
  | crashed
deriving DecidableEq

/-- The readiness marker scanned for on stdout. -/
def READY_KEYWORD : String := "windivert initialized. capture is started."

/-- Whether one observed line triggers an outcome, per `_read_stream`:
a stdout line triggers `ready` iff it contains the marker; a stderr line
triggers `crashed` iff it is non-empty after stripping. -/
def eventOutcome : StreamEvent → Option SupOutcome
  | StreamEvent.out line =>
    if strContains line READY_KEYWORD then some SupOutcome.ready else none
  | StreamEvent.err line =>
    if stripPy line ≠ "" then some SupOutcome.crashed else none

/-- The first triggered outcome among the observed lines (`_outcome` is
only ever set while it is `None`). -/
def firstOutcome : List StreamEvent → Option SupOutcome
  | [] => none
  | e :: rest =>
    match eventOutcome e with
    | some o => some o
    | none => firstOutcome rest

/-- The stderr reader appends every stderr line it reads, trigger or not. -/
def stderrLinesOf (events : List StreamEvent) : List String :=
  events.filterMap fun e =>
    match e with
    | StreamEvent.err l => some l
    | StreamEvent.out _ => none

/-- Python `"".join(lines)` (`get_stderr`). -/
def joinStrings : List String → String
  | [] => ""
  | s :: rest => s ++ joinStrings rest

/-- The supervisor's mutable state: whether a process handle and the two
reader-task handles are held, the accumulated stderr lines, and the
outcome flag. -/
structure SupState where
  process : Bool
  stdoutTask : Bool
  stderrTask : Bool
  stderrLines : List String
  outcome : Option SupOutcome
deriving DecidableEq

/-- The state of a freshly constructed supervisor. -/
def initSupState : SupState :=
  { process := false, stdoutTask := false, stderrTask := false
    stderrLines := [], outcome := none }

/-- `_AsyncWinWSManager.stop`.  `termErr` is the exception, if any, raised
while terminating the external process (`none` also covers
`ProcessLookupError`, which appends nothing); both reader tasks are
cancelled/awaited and cleared first, then the process handle is released
in the `finally` block. -/
def stop (termErr : Option String) (s : SupState) : SupState :=
  let s1 := { s with stdoutTask := false, stderrTask := false }
  if !s1.process then s1
  else
    let s2 :=
      match termErr with
      | some msg =>
        { s1 with stderrLines := s1.stderrLines ++ ["Error during process stop: " ++ msg] }
      | none => s1
    { s2 with process := false }

/-- `get_stderr`. -/
def getStderr (s : SupState) : String :=
  joinStrings s.stderrLines

/-- `_AsyncWinWSManager.start`.  `spawnErr` is the spawn failure, if any;
`events` are the stream lines observed (in order) before the readiness
wait returned — the wait timing out is the case where no event triggers;
`termErr` is passed to the automatic `stop` on the failure path.  Returns
the boolean result together with the poststate. -/
def start (spawnErr : Option String) (events : List StreamEvent)
    (termErr : Option String) (s : SupState) : Bool × SupState :=
  let s0 := if s.process then stop none s else s
  let s1 := { s0 with stderrLines := [], outcome := none }
  match spawnErr with
  | some e =>
    (false, { s1 with stderrLines := ["Failed to start process: " ++ e], process := false })
  | none =>
    let s2 :=
      { s1 with
        process := true, stdoutTask := true, stderrTask := true,
        stderrLines := stderrLinesOf events,
        outcome := firstOutcome events }
    match s2.outcome with
    | some SupOutcome.ready => (true, s2)
    | _ => (false, stop termErr s2)

/-! ## `blockcheck.strategy` -/

/-- `strategy.Strategy`: a protocol plus an ordered list of opaque engine
arguments. -/
structure Strategy where
  protocol : String
  params : List String
deriving DecidableEq

/-- `Strategy.PROTOCOL_FILTERS` (dict lookup with default `[]`). -/
def PROTOCOL_FILTERS (protocol : String) : List String :=
  if protocol = "http" then ["--wf-l3=ipv4", "--wf-tcp=80"]
  else if protocol = "https" then ["--wf-l3=ipv4", "--wf-tcp=443"]
  else if protocol = "http3" then ["--wf-l3=ipv4", "--wf-udp=443"]
  else []

/-- `d.split('/')[0]`: a domain's host part. -/
def basePart (d : String) : String :=
  beforeCharPy '/' d

/-- The host-list deduplication inside `build_command`: host parts, first
occurrences kept, in order (`seen` plays the Python set). -/
def uniqueDomainsAux (seen : List String) : List String → List String
  | [] => []
  | d :: rest =>
    if d ∈ seen then uniqueDomainsAux seen rest
    else d :: uniqueDomainsAux (d :: seen) rest

/-- `[d for d in base_domains if not (d in seen or seen.add(d))]` over
`base_domains = [d.split('/')[0] for d in domains]`. -/
def uniqueDomains (domains : List String) : List String :=
  uniqueDomainsAux [] (domains.map basePart)

/-- The `%~dp0` path-resolution applied to each strategy parameter in
`build_command`.  `baseDir` stands for the module constant `BASE_DIR`;
`str(BASE_DIR / value)` is modelled as joining with a path separator
(no pathlib normalisation — the theorems below only use parameters free
of `%~dp0`, which this branch never touches). -/
def resolveParam (baseDir : String) (param : String) : String :=
  if strContains param "%~dp0" && strContains param "=" then
    let key := beforeCharPy '=' param
    let value := afterCharPy '=' param
    let fullPath := baseDir ++ "\\" ++ ((stripCharPy '"' value).replace "%~dp0" "")
    if strContains fullPath " " then key ++ "=\"" ++ fullPath ++ "\""
    else key ++ "=" ++ fullPath
  else param

/-- `Strategy.build_command`. -/
def buildCommand (baseDir : String) (strat : Strategy) (domains : List String)
    (ipsetPath : Option String) : List String :=
  let command := PROTOCOL_FILTERS strat.protocol
  let command := command ++
    [match ipsetPath with
     | some p => "--ipset=" ++ p
     | none => "--hostlist-domains=" ++ joinWithPy "," (uniqueDomains domains)]
  command ++ strat.params.map (resolveParam baseDir)

/-- `StrategyManager.TEST_KEY_MAP` as an association list. -/
def TEST_KEY_MAP : List (String × String) :=
  [("http", "http"), ("https_tls12", "https"), ("https_tls13", "https"),
   ("http3", "http3")]

/-- Dict lookup `TEST_KEY_MAP.get(test_key, '')`. -/
def testKeyToProtocol (testKey : String) : String :=
  match TEST_KEY_MAP.find? (fun p => p.1 = testKey) with
  | some p => p.2
  | none => ""

/-- `StrategyManager.get_strategies_for_test`: the loaded catalog is a
map from protocol to strategy list (`{}`-default lookup for unknown
protocols is the `catalog` function's own business; the manager only
holds the three protocol keys). -/
def getStrategiesForTest (catalog : String → List Strategy) (testKey : String) :
    List Strategy :=
  if testKeyToProtocol testKey = "" then [] else catalog (testKeyToProtocol testKey)

/-- Reference first-occurrence deduplication: each element appears when
first met, later duplicates filtered out.  Used to state the order
property of `uniqueDomains`. -/
def keepFirst : List String → List String
  | [] => []
  | d :: rest => d :: keepFirst (rest.filter (· ≠ d))
termination_by l => l.length
decreasing_by
  exact Nat.lt_succ_of_le (List.length_filter_le _ _)

/-! ## `config_parser._parse_arguments_structure` -/

/-- `config_parser.PresetRule`. -/
structure PresetRule where
  prefixArgs : List String := []
  strategyArgs : List String := []
  testType : Option String := none
  desyncKey : Option String := none
deriving DecidableEq

/-- Does a token open a rule block (`--filter-` / `--wf-`)? -/
def isFilterArg (a : String) : Bool :=
  startsWithPy a "--filter-" || startsWithPy a "--wf-"

/-- The scan for `first_filter_idx`: arguments before the first filter
token, and the arguments from it on. -/
def splitAtFirstFilter : List String → List String × List String
  | [] => ([], [])
  | a :: rest =>
    if isFilterArg a then ([], a :: rest)
    else
      let gr := splitAtFirstFilter rest
      (a :: gr.1, gr.2)

/-- Tokens routed to a rule's `prefix_args`. -/
def isRuleSelectorToken (t : String) : Bool :=
  startsWithPy t "--filter-" || startsWithPy t "--wf-" ||
  startsWithPy t "--hostlist" || startsWithPy t "--ipset"

/-- The per-token metadata extraction of `_parse_arguments_structure`. -/
def updateMeta (rule : PresetRule) (token : String) : PresetRule :=
  let r1 :=
    if startsWithPy token "--filter-tcp=80" || startsWithPy token "--wf-tcp=80" then
      { rule with testType := some "http" }
    else if startsWithPy token "--filter-tcp=443" || startsWithPy token "--wf-tcp=443" then
      { rule with testType := some "https_tls13" }
    else if startsWithPy token "--filter-udp=443" || startsWithPy token "--wf-udp=443" then
      { rule with testType := some "http3" }
    else if startsWithPy token "--filter-l7=quic" then
      { rule with testType := some "http3" }
    else rule
  if startsWithPy token "--dpi-desync=" then
    { r1 with desyncKey := some (afterCharPy '=' token) }
  else r1

/-- Routing one non-`--new` token into the current rule. -/
def addToken (rule : PresetRule) (t : String) : PresetRule :=
  let r :=
    if isRuleSelectorToken t then { rule with prefixArgs := rule.prefixArgs ++ [t] }
    else { rule with strategyArgs := rule.strategyArgs ++ [t] }
  updateMeta r t

/-- Is the current rule non-empty (appended at `--new` boundaries / end)? -/
def ruleNonEmpty (r : PresetRule) : Bool :=
  !r.prefixArgs.isEmpty || !r.strategyArgs.isEmpty

/-- The token fold of `_parse_arguments_structure` over the rule region. -/
def foldRules : List String → PresetRule → List PresetRule
  | [], cur => if ruleNonEmpty cur then [cur] else []
  | t :: rest, cur =>
    if t = "--new" then
      if ruleNonEmpty cur then cur :: foldRules rest {} else foldRules rest {}
    else foldRules rest (addToken cur t)

/-- `config_parser._parse_arguments_structure`. -/
def parseArgumentsStructure (args : List String) : List String × List PresetRule :=
  let gr := splitAtFirstFilter args
  (gr.1, foldRules gr.2 {})

/-! ## `preset_optimizer.PresetOptimizer`

The probe evaluations performed for a candidate strategy
(`BlockChecker._test_one_strategy`) and for a rule's original strategy
(`PresetOptimizer._test_strategy`) involve live network traffic; the
embedding abstracts them as oracles `evalFn` / `evalOrig` mapping the
tested object to its `StrategyTestResult`.  The decision logic around
them is embedded from the source. -/

/-- `preset_optimizer.OptimizationResult`. -/
structure OptimizationResult where
  changed : Bool
  strategyParams : List String
  avgTime : ℚ := -1
deriving DecidableEq

/-- The parameter clean-up applied to the winning candidate: protocol
filters and targeting dropped. -/
def cleanParams (ps : List String) : List String :=
  ps.filter (fun p => !(startsWithPy p "--wf-" || startsWithPy p "--hostlist-domains"))

/-- The `best_time, best_params` accumulator loop of
`_find_best_alternative`.  The Python pair `(float('inf'), None)` is one
value `none` here (both components are always updated together); the
comparison `result.avg_time < best_time` against `float('inf')` is the
`none` branch. -/
def bestOf (evalFn : Strategy → StrategyTestResult) :
    List Strategy → Option (ℚ × List String) → Option (ℚ × List String)
  | [], best => best
  | c :: rest, best =>
    let r := evalFn c
    let better :=
      match best with
      | none => r.success
      | some bt => r.success && decide (r.avgTime < bt.1)
    if better then bestOf evalFn rest (some (r.avgTime, c.params))
    else bestOf evalFn rest best

/-- The catalog filter of `_find_best_alternative`: strategies for the
test type containing the exact token `--dpi-desync=<key>`. -/
def candidatesFor (catalog : String → List Strategy) (testType desyncKey : String) :
    List Strategy :=
  (getStrategiesForTest catalog testType).filter
    (fun s => ("--dpi-desync=" ++ desyncKey) ∈ s.params)

/-- `PresetOptimizer._find_best_alternative`. -/
def findBestAlternative (catalog : String → List Strategy)
    (evalFn : Strategy → StrategyTestResult) (testType desyncKey : String) :
    Option (List String × ℚ) :=
  let cands := candidatesFor catalog testType desyncKey
  if cands.isEmpty then none
  else
    match bestOf evalFn cands none with
    | none => none
    | some bt => some (cleanParams bt.2, bt.1)

/-- Reference (specification-side) recursion for the search result: the
earliest successful candidate of minimal time, found right-to-left with
ties resolved towards the head.  Used only to prove properties of
`bestOf`. -/
def specBest (evalFn : Strategy → StrategyTestResult) :
    List Strategy → Option (ℚ × List String)
  | [] => none
  | c :: rest =>
    let r := evalFn c
    let tb := specBest evalFn rest
    if r.success then
      match tb with
      | none => some (r.avgTime, c.params)
      | some bt => if r.avgTime ≤ bt.1 then some (r.avgTime, c.params) else some bt
    else tb

/-- Lexicographic `≤` on strings by code point (Python string ordering
for the ASCII tokens involved). -/
def listCharLe : List Char → List Char → Bool
  | [], _ => true
  | _ :: _, [] => false
  | a :: s, b :: t =>
    if a.toNat < b.toNat then true
    else if b.toNat < a.toNat then false
    else listCharLe s t

/-- `a ≤ b` for strings. -/
def strLe (a b : String) : Bool :=
  listCharLe a.data b.data

/-- Stable insertion for `sortStringsPy`. -/
def sortedInsert (x : String) : List String → List String
  | [] => [x]
  | y :: t => if strLe x y then x :: y :: t else y :: sortedInsert x t

/-- Python `sorted(strings)` (stable, ascending by code point). -/
def sortStringsPy (l : List String) : List String :=
  l.foldr sortedInsert []

/-- Python `f"{x}"` for an optional string (`None` prints as `"None"`). -/
def optStr : Option String → String
  | some s => s
  | none => "None"

/-- `PresetOptimizer._get_cache_key`. -/
def getCacheKey (rule : PresetRule) : String :=
  let prefixKey := joinWithPy "|" (sortStringsPy rule.prefixArgs)
  optStr rule.testType ++ ":" ++ optStr rule.desyncKey ++ ":" ++ prefixKey

/-- The run cache `self.cache` as an association list. -/
def lookupCache (cache : List (String × OptimizationResult)) (key : String) :
    Option OptimizationResult :=
  match cache.find? (fun p => p.1 = key) with
  | some p => some p.2
  | none => none

/-- `PresetOptimizer._optimize_rule`.  Returns the rule's result, the
updated cache, and the list of rules actually submitted to testing by
this call (empty when the cached verdict is reused or the rule carries no
test type / technique key). -/
def optimizeRule (evalOrig : PresetRule → StrategyTestResult)
    (catalog : String → List Strategy) (evalFn : Strategy → StrategyTestResult)
    (cache : List (String × OptimizationResult)) (rule : PresetRule) :
    OptimizationResult × List (String × OptimizationResult) × List PresetRule :=
  match rule.testType, rule.desyncKey with
  | some tt, some dk =>
    let key := getCacheKey rule
    match lookupCache cache key with
    | some res => (res, cache, [])
    | none =>
      let r := evalOrig rule
      if r.success then
        let res : OptimizationResult :=
          { changed := false, strategyParams := rule.strategyArgs, avgTime := r.avgTime }
        (res, (key, res) :: cache, [rule])
      else
        match findBestAlternative catalog evalFn tt dk with
        | none =>
          let res : OptimizationResult :=
            { changed := false, strategyParams := rule.strategyArgs }
          (res, (key, res) :: cache, [rule])
        | some pt =>
          let res : OptimizationResult :=
            { changed := true, strategyParams := pt.1, avgTime := pt.2 }
          (res, (key, res) :: cache, [rule])
  | _, _ =>
    ({ changed := false, strategyParams := rule.strategyArgs }, cache, [])

/-- The optimization loop of `PresetOptimizer.run` over the parsed rules,
threading the cache and collecting results and the tested-rule trace. -/
def optimizeRules (evalOrig : PresetRule → StrategyTestResult)
    (catalog : String → List Strategy) (evalFn : Strategy → StrategyTestResult)
    (cache : List (String × OptimizationResult)) :
    List PresetRule → List OptimizationResult × List (String × OptimizationResult) × List PresetRule
  | [] => ([], cache, [])
  | rule :: rest =>
    let step := optimizeRule evalOrig catalog evalFn cache rule
    let restRun := optimizeRules evalOrig catalog evalFn step.2.1 rest
    (step.1 :: restRun.1, restRun.2.1, step.2.2 ++ restRun.2.2)

/-- The poststate built by a successfully spawned `start` before its
outcome is examined. -/
def startedState (events : List StreamEvent) : SupState :=
  { process := true
    stdoutTask := true
    stderrTask := true
    stderrLines := stderrLinesOf events
    outcome := firstOutcome events }

/-- How the `bestOf` accumulator combines with the best of a remaining
suffix: the incumbent wins ties (the suffix must be strictly faster to
replace it).  Used only in proofs about `bestOf`. -/
def mergeBest : Option (ℚ × List String) → Option (ℚ × List String) →
    Option (ℚ × List String)
  | none, tb => tb
  | some b, none => some b
  | some b, some t => if t.1 < b.1 then some t else some b

/-! ## Concrete instances used to exercise the theorems -/

/-- A catalog holding two https strategies sharing technique key `fake`
(the §8-style scenario). -/
def exCatalog : String → List Strategy := fun p =>
  if p = "https" then
    [⟨"https", ["--dpi-desync=fake", "--fake-one"]⟩,
     ⟨"https", ["--dpi-desync=fake", "--fake-two"]⟩]
  else []

/-- An evaluation oracle making both `exCatalog` candidates succeed, the
first being faster. -/
def exEvalFn : Strategy → StrategyTestResult := fun s =>
  if s.params.contains "--fake-one" then { success := true, avgTime := 1 }
  else { success := true, avgTime := 2 }

/-- A preset rule for `(https_tls13, fake)` with a bare filter prefix. -/
def exRuleA : PresetRule :=
  { prefixArgs := ["--wf-tcp=443"]
    strategyArgs := ["--dpi-desync=fake"]
    testType := some "https_tls13"
    desyncKey := some "fake" }

/-- A second rule with the same protocol and technique key as `exRuleA`
but a different prefix. -/
def exRuleB : PresetRule :=
  { prefixArgs := ["--wf-tcp=443", "--hostlist-domains=x.com"]
    strategyArgs := ["--dpi-desync=fake", "--dpi-desync-ttl=4"]
    testType := some "https_tls13"
    desyncKey := some "fake" }

/-- An original-strategy oracle that always fails. -/
def exFailEval : PresetRule → StrategyTestResult := fun _ => { success := false }

/-- An empty strategy catalog. -/
def exEmptyCatalog : String → List Strategy := fun _ => []

/-- A candidate oracle that always fails. -/
def exNoEval : Strategy → StrategyTestResult := fun _ => { success := false }

/-- A cached verdict used to exercise cache reuse. -/
def exCachedRes : OptimizationResult :=
  { changed := false, strategyParams := ["--dpi-desync=fake"], avgTime := 5 }

/-- A well-formed https strategy for the round-trip property. -/
def exStrategyGood : Strategy :=
  ⟨"https", ["--dpi-desync=fake", "--dpi-desync-ttl=4"]⟩

/-- An https strategy whose parameters smuggle a `--wf-udp=443` token. -/
def exStrategyBad : Strategy :=
  ⟨"https", ["--dpi-desync=fake", "--wf-udp=443"]⟩
/-! ## Generic facts about the string primitives -/

theorem dataAppend (a b : String) : (a ++ b).data = a.data ++ b.data := rfl

theorem stringEqOfData {a b : String} (h : a.data = b.data) : a = b := by
  cases a
  cases b
  exact congrArg String.mk h

theorem stringEqEmptyIffData (s : String) : s = "" ↔ s.data = [] := by
  constructor
  · intro h
    rw [h]
  · intro h
    exact stringEqOfData h

/-! ## Facts about `stop` and `getStderr` (process supervisor) -/

theorem stopOfProcessFalse (e : Option String) (s : SupState) (hp : s.process = false) :
    stop e s = { s with stdoutTask := false, stderrTask := false } := by
  unfold stop
  simp [hp]

theorem stopClears (e : Option String) (s : SupState) :
    (stop e s).process = false ∧ (stop e s).stdoutTask = false ∧
    (stop e s).stderrTask = false := by
  unfold stop
  cases e <;> by_cases hp : s.process <;> simp [hp]

theorem stopLinesSupset (e : Option String) (s : SupState) :
    ∀ x ∈ s.stderrLines, x ∈ (stop e s).stderrLines := by
  intro x hx
  unfold stop
  cases e <;> by_cases hp : s.process <;> simp [hp, hx]

theorem joinStringsNe (ls : List String) (x : String) (hx : x ∈ ls) (hne : x ≠ "") :
    joinStrings ls ≠ "" := by
  induction ls with
  | nil => cases hx
  | cons a t ih =>
    intro h
    have hdata : a.data ++ (joinStrings t).data = [] := by
      have h2 : (a ++ joinStrings t).data = [] := by
        simpa [joinStrings] using congrArg String.data h
      rw [dataAppend] at h2
      exact h2
    have ha : a.data = [] := (List.append_eq_nil.mp hdata).1
    have ht : (joinStrings t).data = [] := (List.append_eq_nil.mp hdata).2
    rcases List.mem_cons.mp hx with rfl | hxt
    · exact hne (stringEqOfData ha)
    · exact ih hxt (stringEqOfData ht)

/-- Claim C7: `stop()` is idempotent and total — a second `stop` is a
no-op, `stop` on a never-started supervisor leaves the initial state
unchanged, and after any `stop` no process handle and no reader-task
handle is held. -/
theorem stopIdempotentAndTotal :
    ∀ (e1 e2 : Option String) (s : SupState),
      stop e2 (stop e1 s) = stop e1 s ∧
      stop e1 initSupState = initSupState ∧
      (stop e1 s).process = false ∧
      (stop e1 s).stdoutTask = false ∧
      (stop e1 s).stderrTask = false := by
  intro e1 e2 s
  refine ⟨?_, ?_, (stopClears e1 s).1, (stopClears e1 s).2.1, (stopClears e1 s).2.2⟩
  · have h := stopClears e1 s
    rw [stopOfProcessFalse e2 _ h.1]
    rcases hst : stop e1 s with ⟨p, ot, et, ls, oc⟩
    rw [hst] at h
    simp_all
  · rw [stopOfProcessFalse e1 initSupState rfl]
    rfl

theorem firstOutcomeCrashed (pre post : List StreamEvent) (l : String)
    (hl : stripPy l ≠ "")
    (hpre : ∀ e ∈ pre, eventOutcome e ≠ some SupOutcome.ready) :
    firstOutcome (pre ++ StreamEvent.err l :: post) = some SupOutcome.crashed := by
  induction pre with
  | nil => simp [firstOutcome, eventOutcome, hl]
  | cons e rest ih =>
    have he := hpre e (List.mem_cons_self e rest)
    cases ho : eventOutcome e with
    | none =>
      simp only [List.cons_append, firstOutcome, ho]
      exact ih fun x hx => hpre x (List.mem_cons_of_mem e hx)
    | some o =>
      cases o with
      | ready => exact absurd ho he
      | crashed => simp [firstOutcome, ho]

theorem memStderrLinesOf (pre post : List StreamEvent) (l : String) :
    l ∈ stderrLinesOf (pre ++ StreamEvent.err l :: post) := by
  simp [stderrLinesOf, List.filterMap_append]

theorem startEqSpawnOk (events : List StreamEvent) (termErr : Option String)
    (s : SupState) :
    start none events termErr s =
      match firstOutcome events with
      | some SupOutcome.ready => (true, startedState events)
      | _ => (false, stop termErr (startedState events)) := by
  unfold start startedState
  rcases h : firstOutcome events with _ | o
  · simp [h]
  · cases o <;> simp [h]

/-- Claim C3: `start` succeeds exactly when the readiness marker's signal
is the first observed outcome; every other outcome (a crash signal first,
or no signal before the timeout) yields `false` with an automatic `stop`
clearing the process and reader-task handles; and a non-empty stderr line
observed before any readiness line yields `false` with non-empty captured
stderr text. -/
theorem startReadinessGate (events : List StreamEvent) (termErr : Option String)
    (s : SupState) :
    ((start none events termErr s).1 = true ↔
        firstOutcome events = some SupOutcome.ready) ∧
    (firstOutcome events ≠ some SupOutcome.ready →
      (start none events termErr s).1 = false ∧
      (start none events termErr s).2.process = false ∧
      (start none events termErr s).2.stdoutTask = false ∧
      (start none events termErr s).2.stderrTask = false) ∧
    (∀ pre l post, events = pre ++ StreamEvent.err l :: post → stripPy l ≠ "" →
      (∀ e ∈ pre, eventOutcome e ≠ some SupOutcome.ready) →
      (start none events termErr s).1 = false ∧
      getStderr (start none events termErr s).2 ≠ "") := by
  rw [startEqSpawnOk]
  cases hfo : firstOutcome events with
  | some o =>
    cases o with
    | ready =>
      refine ⟨by simp, by simp, ?_⟩
      intro pre l post hev hl hpre
      rw [hev] at hfo
      rw [firstOutcomeCrashed pre post l hl hpre] at hfo
      cases hfo
    | crashed =>
      refine ⟨by simp, fun _ => ⟨rfl, (stopClears _ _).1, (stopClears _ _).2.1,
        (stopClears _ _).2.2⟩, ?_⟩
      intro pre l post hev hl hpre
      refine ⟨rfl, ?_⟩
      have hlne : l ≠ "" := by
        intro h
        rw [h] at hl
        exact hl rfl
      have hmem : l ∈ (startedState events).stderrLines := by
        rw [hev]
        exact memStderrLinesOf pre post l
      have hmem2 : l ∈ (stop termErr (startedState events)).stderrLines :=
        stopLinesSupset termErr _ l hmem
      exact joinStringsNe _ l hmem2 hlne
  | none =>
    refine ⟨by simp, fun _ => ⟨rfl, (stopClears _ _).1, (stopClears _ _).2.1,
      (stopClears _ _).2.2⟩, ?_⟩
    intro pre l post hev hl hpre
    rw [hev] at hfo
    rw [firstOutcomeCrashed pre post l hl hpre] at hfo
    cases hfo

/-! ## Claims C5 and C8: response validation -/

theorem headersNeOfStatus {headers : String} {status : Nat}
    (hstat : searchStatus headers.data = some status) : headers ≠ "" := by
  intro h
  have hnone : searchStatus ("" : String).data = none := rfl
  rw [h, hnone] at hstat
  cases hstat

/-- Claim C5 (amended): a parsed status of exactly 400 yields the
distinct malformed-fakes diagnostic; a 3xx status is handed to the
redirect inspection (success outright when the redirect-as-success flag
is set); every other parsed status — 2xx, but also statuses outside
2xx/3xx such as 404 or 500 — yields success. -/
theorem validateStatusClassification (flag : Bool) (domain headers : String)
    (status : Nat) (hstat : searchStatus headers.data = some status) :
    (status = 400 → validate flag domain headers =
        some "HTTP 400: Bad Request. Server likely receives fakes.") ∧
    ((300 ≤ status ∧ status < 400) → validate flag domain headers =
        if flag then none else checkRedirect domain headers) ∧
    (status ≠ 400 → ¬(300 ≤ status ∧ status < 400) →
        validate flag domain headers = none) := by
  have hne : headers ≠ "" := headersNeOfStatus hstat
  simp only [validate, if_neg hne, hstat]
  refine ⟨?_, ?_, ?_⟩
  · intro h400
    rw [if_pos h400]
  · intro h3
    rw [if_neg (by omega : ¬status = 400), if_pos h3]
  · intro h4 h3
    rw [if_neg h4, if_neg h3]

/-- Claim C5 counterexample: a parsed status of 500 — outside both the
2xx and 3xx ranges and different from 400 — makes `validate` report
success (`none`), not a direct failure. -/
theorem validateStatusCounterexample :
    searchStatus ("HTTP/1.1 500 Internal Server Error" : String).data = some 500 ∧
    ¬(200 ≤ 500 ∧ 500 < 300) ∧ ¬(300 ≤ 500 ∧ 500 < 400) ∧ 500 ≠ 400 ∧
    validate REDIRECT_AS_SUCCESS "example.com" "HTTP/1.1 500 Internal Server Error" =
      none := by
  decide

theorem validateStatusWitness :
    validate false "example.com" "HTTP/1.1 404 Not Found" = none :=
  (validateStatusClassification false "example.com" "HTTP/1.1 404 Not Found" 404
    (by decide)).2.2 (by decide) (by decide)

/-- Claim C8: for a 3xx response carrying a `Location` header, a location
that is an absolute http(s) URL not containing the probed domain's root
domain is reported as a suspicious redirection — unless the
redirect-as-success flag is set, in which case the probe succeeds; a
location that is not an absolute http(s) URL (a relative path), or one
containing the root domain, is success. -/
theorem redirectInspection (flag : Bool) (domain headers : String) (status : Nat)
    (grp : String) (hstat : searchStatus headers.data = some status)
    (h3 : 300 ≤ status ∧ status < 400)
    (hloc : findLocationRest (splitCharPy '\n' headers) = some grp) :
    ((startsWithPy (lowerPy (stripPy grp)) "http://" ||
        startsWithPy (lowerPy (stripPy grp)) "https://") = true →
      strContains (lowerPy (stripPy grp)) (getRootDomain (beforeCharPy '/' domain)) = false →
      validate flag domain headers =
        if flag then none
        else some ("Suspicious redirect to: " ++ lowerPy (stripPy grp))) ∧
    ((startsWithPy (lowerPy (stripPy grp)) "http://" ||
        startsWithPy (lowerPy (stripPy grp)) "https://") = false →
      validate flag domain headers = none) ∧
    (strContains (lowerPy (stripPy grp)) (getRootDomain (beforeCharPy '/' domain)) = true →
      validate flag domain headers = none) := by
  have hne : headers ≠ "" := headersNeOfStatus hstat
  have hval : validate flag domain headers =
      if flag then none else checkRedirect domain headers := by
    simp only [validate, if_neg hne, hstat]
    rw [if_neg (by omega : ¬status = 400), if_pos h3]
  cases flag with
  | true =>
    rw [hval]
    exact ⟨fun _ _ => rfl, fun _ => rfl, fun _ => rfl⟩
  | false =>
    rw [hval]
    simp only [if_neg Bool.false_ne_true]
    simp only [checkRedirect, hloc]
    refine ⟨?_, ?_, ?_⟩
    · intro habs hroot
      rw [habs]
      simp [hroot]
    · intro habs
      simp [habs]
    · intro hroot
      by_cases habs : (startsWithPy (lowerPy (stripPy grp)) "http://" ||
          startsWithPy (lowerPy (stripPy grp)) "https://") = true
      · simp [habs, hroot]
      · simp [Bool.not_eq_true] at habs
        simp [habs]

theorem redirectInspectionWitness :
    validate false "example.com" "HTTP/1.1 302 Found\nLocation: http://evil.org/" =
      (if false then none
       else some ("Suspicious redirect to: " ++
         lowerPy (stripPy " http://evil.org/"))) ∧
    validate false "example.com" "HTTP/1.1 302 Found\nLocation: /bounce" = none :=
  ⟨(redirectInspection false "example.com" "HTTP/1.1 302 Found\nLocation: http://evil.org/"
      302 " http://evil.org/" (by decide) (by decide) (by decide)).1 (by decide) (by decide),
   (redirectInspection false "example.com" "HTTP/1.1 302 Found\nLocation: /bounce"
      302 " /bounce" (by decide) (by decide) (by decide)).2.1 (by decide)⟩

/-! ## Claims C1 and C2: fail-fast rounds and time aggregation -/

theorem sumTimesCons (r : CurlTestResult) (rest : List CurlTestResult) :
    sumTimes (r :: rest) = r.timeTaken + sumTimes rest := by
  simp [sumTimes]

theorem testWithCommandStartOk (domains : List String) (repeats : Nat)
    (wst em : String) (rounds : Nat → List CurlTestResult) :
    testWithCommand domains repeats true wst em rounds =
      match runRounds (decide (1 < domains.length)) rounds 0 repeats 0 with
      | Except.error out => { success := false, curlOutput := out }
      | Except.ok total =>
        { success := true
          avgTime :=
            if 0 < domains.length * repeats then
              total / ((domains.length * repeats : Nat) : ℚ)
            else 0 } := rfl

theorem runRoundAllSuccess (multi : Bool) (l : List CurlTestResult) (acc : ℚ)
    (h : ∀ r ∈ l, r.success = true) :
    runRound multi l acc = Except.ok (acc + sumTimes l) := by
  induction l generalizing acc with
  | nil => simp [runRound, sumTimes]
  | cons r rest ih =>
    have hr := h r (List.mem_cons_self r rest)
    simp only [runRound, hr, if_pos]
    rw [ih _ fun x hx => h x (List.mem_cons_of_mem r hx), sumTimesCons]
    ring_nf

theorem runRoundFirstFail (multi : Bool) (pre post : List CurlTestResult)
    (f : CurlTestResult) (acc : ℚ)
    (hpre : ∀ r ∈ pre, r.success = true) (hf : f.success = false) :
    runRound multi (pre ++ f :: post) acc = Except.error (failOutput multi f) := by
  induction pre generalizing acc with
  | nil => simp [runRound, hf]
  | cons r rest ih =>
    have hr := hpre r (List.mem_cons_self r rest)
    simp only [List.cons_append, runRound, hr, if_pos]
    exact ih _ fun x hx => hpre x (List.mem_cons_of_mem r hx)

theorem runRoundsAllSuccess (multi : Bool) (rounds : Nat → List CurlTestResult) :
    ∀ (n i : Nat) (acc : ℚ),
      (∀ j, j < n → ∀ r ∈ rounds (i + j), r.success = true) →
      runRounds multi rounds i n acc =
        Except.ok (acc + ((List.range n).map fun j => sumTimes (rounds (i + j))).sum) := by
  intro n
  induction n with
  | zero =>
    intro i acc _
    simp [runRounds]
  | succ m ih =>
    intro i acc h
    have h0 : ∀ r ∈ rounds i, r.success = true := by
      have := h 0 (Nat.succ_pos m)
      simpa using this
    have hstep : runRounds multi rounds i (m + 1) acc =
        runRounds multi rounds (i + 1) m (acc + sumTimes (rounds i)) := by
      show (match runRound multi (rounds i) acc with
        | Except.error e => Except.error e
        | Except.ok acc2 => runRounds multi rounds (i + 1) m acc2) = _
      rw [runRoundAllSuccess _ _ _ h0]
    rw [hstep]
    rw [ih (i + 1) _ fun j hj => by
      have := h (j + 1) (Nat.succ_lt_succ hj)
      have harith : i + (j + 1) = i + 1 + j := by omega
      rwa [harith] at this]
    congr 1
    rw [List.range_succ_eq_map]
    simp only [List.map_cons, List.map_map, List.sum_cons]
    have hmap : (List.range m).map ((fun j => sumTimes (rounds (i + j))) ∘ Nat.succ) =
        (List.range m).map fun j => sumTimes (rounds (i + 1 + j)) := by
      refine List.map_congr_left fun a _ => ?_
      have : i + Nat.succ a = i + 1 + a := by omega
      simp [Function.comp, this]
    rw [hmap]
    rw [add_assoc]
    simp

theorem runRoundsFirstFail (multi : Bool) (rounds : Nat → List CurlTestResult) :
    ∀ (n i : Nat) (acc : ℚ) (k : Nat), k < n →
      (∀ j, j < k → ∀ r ∈ rounds (i + j), r.success = true) →
      ∀ (pre post : List CurlTestResult) (f : CurlTestResult),
        rounds (i + k) = pre ++ f :: post →
        (∀ r ∈ pre, r.success = true) → f.success = false →
        runRounds multi rounds i n acc = Except.error (failOutput multi f) := by
  intro n
  induction n with
  | zero =>
    intro i acc k hk
    exact absurd hk (Nat.not_lt_zero k)
  | succ m ih =>
    intro i acc k hk hprev pre post f hround hpre hf
    cases k with
    | zero =>
      simp only [runRounds]
      have hr : rounds i = pre ++ f :: post := by simpa using hround
      rw [hr, runRoundFirstFail multi pre post f acc hpre hf]
    | succ k2 =>
      have h0 : ∀ r ∈ rounds i, r.success = true := by
        have := hprev 0 (Nat.succ_pos k2)
        simpa using this
      have hstep : runRounds multi rounds i (m + 1) acc =
          runRounds multi rounds (i + 1) m (acc + sumTimes (rounds i)) := by
        show (match runRound multi (rounds i) acc with
          | Except.error e => Except.error e
          | Except.ok acc2 => runRounds multi rounds (i + 1) m acc2) = _
        rw [runRoundAllSuccess multi _ acc h0]
      rw [hstep]
      refine ih (i + 1) _ k2 (by omega) (fun j hj => ?_) pre post f ?_ hpre hf
      · have := hprev (j + 1) (by omega)
        have harith : i + (j + 1) = i + 1 + j := by omega
        rwa [harith] at this
      · have harith : i + (k2 + 1) = i + 1 + k2 := by omega
        rwa [harith] at hround

/-- Claim C1: in any evaluation whose earlier rounds fully succeed and
whose round `k` completes as `pre ++ f :: post` with every probe of `pre`
successful and `f` failing, the whole evaluation returns failure carrying
`f`'s diagnostic — whatever `post` holds (later completions, successful
or not, are discarded and never awaited by the result) — and the failure
result carries no average time (the `-1` sentinel). -/
theorem failFastFirstFailure (domains : List String) (repeats : Nat)
    (wst em : String) (rounds : Nat → List CurlTestResult)
    (k : Nat) (hk : k < repeats)
    (hprev : ∀ j, j < k → ∀ r ∈ rounds j, r.success = true)
    (pre post : List CurlTestResult) (f : CurlTestResult)
    (hround : rounds k = pre ++ f :: post)
    (hpre : ∀ r ∈ pre, r.success = true) (hf : f.success = false) :
    testWithCommand domains repeats true wst em rounds =
      { success := false
        avgTime := -1
        curlOutput := failOutput (decide (1 < domains.length)) f
        winwsStderr := "" } := by
  rw [testWithCommandStartOk]
  rw [runRoundsFirstFail (decide (1 < domains.length)) rounds repeats 0 0 k hk
    (fun j hj => by simpa using hprev j hj) pre post f (by simpa using hround) hpre hf]

theorem failFastWitness :
    testWithCommand ["a", "b"] 1 true "" ""
        (fun _ => [⟨true, 0, "Success", 1, "a"⟩,
                   ⟨false, 28, "Operation timed out", -1, "b"⟩]) =
      { success := false
        avgTime := -1
        curlOutput := failOutput (decide (1 < (["a", "b"] : List String).length))
          ⟨false, 28, "Operation timed out", -1, "b"⟩
        winwsStderr := "" } :=
  failFastFirstFailure ["a", "b"] 1 "" "" _ 0 (by decide)
    (fun j hj => absurd hj (Nat.not_lt_zero j))
    [⟨true, 0, "Success", 1, "a"⟩] [] ⟨false, 28, "Operation timed out", -1, "b"⟩
    rfl (by decide) rfl

theorem sumTimesFlatten (L : List (List CurlTestResult)) :
    sumTimes L.flatten = (L.map sumTimes).sum := by
  simp only [sumTimes, List.map_flatten, List.sum_flatten, List.map_map]
  rfl

theorem lengthAllResults (rounds : Nat → List CurlTestResult) (repeats : Nat)
    (c : Nat) (hlen : ∀ j, j < repeats → (rounds j).length = c) :
    (allResults rounds repeats).length = repeats * c := by
  unfold allResults
  rw [List.length_flatten, List.map_map]
  have hmap : (List.range repeats).map (List.length ∘ rounds) =
      (List.range repeats).map fun _ => c := by
    refine List.map_congr_left fun a ha => ?_
    have : a < repeats := List.mem_range.mp ha
    simp [Function.comp, hlen a this]
  rw [hmap, List.map_const']
  simp [List.sum_replicate, smul_eq_mul]

/-- Claim C2 (amended): for a successful evaluation every measured timing
is kept — the reported average is the mean elapsed time over all
target×repeat measurements (no per-target minimum is taken) — and any
failing probe on any repeat cancels the whole evaluation. -/
theorem avgOverAllMeasurements (domains : List String) (repeats : Nat)
    (wst em : String) :
    (∀ rounds : Nat → List CurlTestResult, domains ≠ [] → 0 < repeats →
      (∀ j, j < repeats → ∀ r ∈ rounds j, r.success = true) →
      (∀ j, j < repeats → (rounds j).length = domains.length) →
      testWithCommand domains repeats true wst em rounds =
        { success := true
          avgTime := sumTimes (allResults rounds repeats) /
            ((allResults rounds repeats).length : ℚ)
          curlOutput := ""
          winwsStderr := "" }) ∧
    (∀ rounds : Nat → List CurlTestResult, ∀ k, k < repeats →
      (∀ j, j < k → ∀ r ∈ rounds j, r.success = true) →
      ∀ (pre post : List CurlTestResult) (f : CurlTestResult),
        rounds k = pre ++ f :: post → (∀ r ∈ pre, r.success = true) →
        f.success = false →
        (testWithCommand domains repeats true wst em rounds).success = false) := by
  constructor
  · intro rounds hdom hrep hall hlen
    rw [testWithCommandStartOk]
    rw [runRoundsAllSuccess (decide (1 < domains.length)) rounds repeats 0 0
      fun j hj => by simpa using hall j hj]
    have hpos : 0 < domains.length * repeats :=
      Nat.mul_pos (List.length_pos.mpr hdom) hrep
    have hsum : sumTimes (allResults rounds repeats) =
        (0 : ℚ) + ((List.range repeats).map fun j => sumTimes (rounds (0 + j))).sum := by
      unfold allResults
      rw [sumTimesFlatten, List.map_map]
      simp only [zero_add, Nat.zero_add]
      rfl
    have hlen2 : ((allResults rounds repeats).length : ℚ) =
        ((domains.length * repeats : Nat) : ℚ) := by
      rw [lengthAllResults rounds repeats domains.length hlen, Nat.mul_comm]
    simp only [if_pos hpos]
    rw [← hsum, ← hlen2]
  · intro rounds k hk hprev pre post f hround hpre hf
    rw [testWithCommandStartOk]
    rw [runRoundsFirstFail (decide (1 < domains.length)) rounds repeats 0 0 k hk
      (fun j hj => by simpa using hprev j hj) pre post f (by simpa using hround) hpre hf]

theorem avgOverAllMeasurementsWitness :
    testWithCommand ["a"] 1 true "" "" (fun _ => [⟨true, 0, "Success", 1, "a"⟩]) =
      { success := true
        avgTime :=
          sumTimes (allResults (fun _ => [⟨true, 0, "Success", 1, "a"⟩]) 1) /
            ((allResults (fun _ => [⟨true, 0, "Success", 1, "a"⟩]) 1).length : ℚ)
        curlOutput := ""
        winwsStderr := "" } :=
  (avgOverAllMeasurements ["a"] 1 "" "").1 (fun _ => [⟨true, 0, "Success", 1, "a"⟩])
    (by decide) (by decide)
    (fun j hj => by
      have : j = 0 := by omega
      subst this
      decide)
    (fun j hj => by
      have : j = 0 := by omega
      subst this
      decide)

/-- Claim C2 counterexample: one target probed over two repeats with
elapsed times 1 and 3 — the evaluation reports the mean over all
measurements, 2, not the kept-fastest value 1 the claim describes. -/
theorem avgOverAllMeasurementsCounterexample :
    (testWithCommand ["a"] 2 true "" ""
        (fun n => if n = 0 then [⟨true, 0, "Success", 1, "a"⟩]
                  else [⟨true, 0, "Success", 3, "a"⟩])).avgTime = 2 ∧
    specKeepFastestAvg [[1, 3]] = 1 ∧ (2 : ℚ) ≠ 1 := by
  refine ⟨?_, ?_, by norm_num⟩
  · rw [testWithCommandStartOk]
    have h2 : runRounds (decide (1 < (["a"] : List String).length))
        (fun n => if n = 0 then [⟨true, 0, "Success", 1, "a"⟩]
                  else [⟨true, 0, "Success", 3, "a"⟩]) 0 2 0 =
        Except.ok ((0 + 1) + 3) := by
      simp [runRounds, runRound]
    rw [h2]
    norm_num
  · simp [specKeepFastestAvg, minTimeOf]

/-! ## Claim C10: the host-list selector -/

theorem keepFirstMem (l : List String) (x : String) : x ∈ keepFirst l ↔ x ∈ l := by
  induction l using keepFirst.induct with
  | case1 => simp [keepFirst]
  | case2 d rest ih =>
    rw [keepFirst]
    simp only [List.mem_cons, ih, List.mem_filter]
    constructor
    · rintro (rfl | ⟨hx, _⟩)
      · exact Or.inl rfl
      · exact Or.inr hx
    · rintro (rfl | hx)
      · exact Or.inl rfl
      · by_cases hxd : x = d
        · exact Or.inl hxd
        · exact Or.inr ⟨hx, by simpa using hxd⟩

theorem keepFirstNodup (l : List String) : (keepFirst l).Nodup := by
  induction l using keepFirst.induct with
  | case1 => simp [keepFirst]
  | case2 d rest ih =>
    rw [keepFirst]
    refine List.nodup_cons.mpr ⟨?_, ih⟩
    intro hmem
    have := (keepFirstMem _ d).mp hmem
    simp at this

theorem keepFirstAppendDup (l : List String) :
    ∀ b ∈ l, keepFirst (l ++ [b]) = keepFirst l := by
  induction l using keepFirst.induct with
  | case1 =>
    intro b hb
    cases hb
  | case2 d rest ih =>
    intro b hb
    rw [List.cons_append, keepFirst, keepFirst]
    congr 1
    rw [List.filter_append]
    by_cases hbd : b = d
    · simp [hbd]
    · have hbr : b ∈ rest := by
        rcases List.mem_cons.mp hb with h | h
        · exact absurd h hbd
        · exact h
      have hkeep : List.filter (fun x => decide (x ≠ d)) [b] = [b] := by
        simp [hbd]
      rw [hkeep]
      exact ih b (List.mem_filter.mpr ⟨hbr, by simpa using hbd⟩)

theorem uniqueDomainsAuxEq (l : List String) :
    ∀ seen, uniqueDomainsAux seen l =
      keepFirst (l.filter fun d => decide (d ∉ seen)) := by
  induction l with
  | nil =>
    intro seen
    simp [uniqueDomainsAux, keepFirst]
  | cons d rest ih =>
    intro seen
    by_cases hd : d ∈ seen
    · rw [show uniqueDomainsAux seen (d :: rest) = uniqueDomainsAux seen rest by
        simp [uniqueDomainsAux, hd]]
      rw [ih seen]
      congr 1
      simp [List.filter_cons, hd]
    · rw [show uniqueDomainsAux seen (d :: rest) =
          d :: uniqueDomainsAux (d :: seen) rest by simp [uniqueDomainsAux, hd]]
      rw [ih (d :: seen)]
      have hfc : List.filter (fun x => decide (x ∉ seen)) (d :: rest) =
          d :: List.filter (fun x => decide (x ∉ seen)) rest := by
        simp [List.filter_cons, hd]
      rw [hfc, keepFirst]
      congr 1
      rw [List.filter_filter]
      refine congrArg keepFirst (List.filter_congr fun a _ => ?_)
      by_cases h1 : a = d <;> by_cases h2 : a ∈ seen <;> simp [h1, h2]

/-- Claim C10: the host-list selector built from a domain list contains
each domain's host part exactly once, in order of first occurrence
(`keepFirst`), never contains path suffixes, and is invariant under
duplicate domains and path-suffix changes; the built command carries it
as the single `--hostlist-domains=` token. -/
theorem hostlistSelector (domains : List String) :
    uniqueDomains domains = keepFirst (domains.map basePart) ∧
    (uniqueDomains domains).Nodup ∧
    (∀ d ∈ domains, basePart d ∈ uniqueDomains domains) ∧
    (∀ x ∈ uniqueDomains domains, ∃ d ∈ domains, x = basePart d) ∧
    (∀ l2 : List String, domains.map basePart = l2.map basePart →
        uniqueDomains domains = uniqueDomains l2) ∧
    (∀ d, basePart d ∈ domains.map basePart →
        uniqueDomains (domains ++ [d]) = uniqueDomains domains) ∧
    (∀ (baseDir : String) (strat : Strategy),
        buildCommand baseDir strat domains none =
          PROTOCOL_FILTERS strat.protocol ++
            ["--hostlist-domains=" ++ joinWithPy "," (uniqueDomains domains)] ++
            strat.params.map (resolveParam baseDir)) := by
  have hkf : ∀ l : List String, uniqueDomains l = keepFirst (l.map basePart) := by
    intro l
    unfold uniqueDomains
    rw [uniqueDomainsAuxEq]
    congr 1
    simp
  refine ⟨hkf domains, ?_, ?_, ?_, ?_, ?_, ?_⟩
  · rw [hkf]
    exact keepFirstNodup _
  · intro d hd
    rw [hkf]
    exact (keepFirstMem _ _).mpr (List.mem_map_of_mem basePart hd)
  · intro x hx
    rw [hkf] at hx
    have := (keepFirstMem _ _).mp hx
    rcases List.mem_map.mp this with ⟨d, hd, hbd⟩
    exact ⟨d, hd, hbd.symm⟩
  · intro l2 heq
    rw [hkf, hkf, heq]
  · intro d hd
    rw [hkf, hkf, List.map_append]
    simpa using keepFirstAppendDup (domains.map basePart) (basePart d) hd
  · intro baseDir strat
    rfl

theorem hostlistSelectorWitness :
    uniqueDomains (["a.com/x", "b.com"] ++ ["a.com/y"]) =
      uniqueDomains ["a.com/x", "b.com"] :=
  (hostlistSelector ["a.com/x", "b.com"]).2.2.2.2.2.1 "a.com/y" (by decide)

theorem startReadinessGateWitness :
    (start none [StreamEvent.err "boom"] none initSupState).1 = false ∧
    getStderr (start none [StreamEvent.err "boom"] none initSupState).2 ≠ "" :=
  (startReadinessGate [StreamEvent.err "boom"] none initSupState).2.2 [] "boom" []
    rfl (by decide) (by decide)

/-! ## Claim C4: the alternative search -/

theorem bestOfEqMergeBest (evalFn : Strategy → StrategyTestResult) :
    ∀ (l : List Strategy) (best : Option (ℚ × List String)),
      bestOf evalFn l best = mergeBest best (specBest evalFn l) := by
  intro l
  induction l with
  | nil =>
    intro best
    cases best <;> rfl
  | cons c rest ih =>
    intro best
    by_cases hs : (evalFn c).success = true
    · cases best with
      | none =>
        rw [show bestOf evalFn (c :: rest) none =
            bestOf evalFn rest (some ((evalFn c).avgTime, c.params)) by
          simp [bestOf, hs]]
        rw [ih]
        cases ht : specBest evalFn rest with
        | none => simp [specBest, hs, ht, mergeBest]
        | some bt =>
          simp only [specBest, hs, if_pos, ht]
          by_cases hle : (evalFn c).avgTime ≤ bt.1
          · simp [mergeBest, not_lt.mpr hle, hle]
          · have hlt : bt.1 < (evalFn c).avgTime := not_le.mp hle
            simp [mergeBest, hlt, hle]
      | some b =>
        by_cases hlt : (evalFn c).avgTime < b.1
        · rw [show bestOf evalFn (c :: rest) (some b) =
              bestOf evalFn rest (some ((evalFn c).avgTime, c.params)) by
            simp [bestOf, hs, hlt]]
          rw [ih]
          cases ht : specBest evalFn rest with
          | none => simp [specBest, hs, ht, mergeBest, hlt]
          | some bt =>
            simp only [specBest, hs, if_pos, ht]
            by_cases hle : (evalFn c).avgTime ≤ bt.1
            · simp [mergeBest, not_lt.mpr hle, hle, hlt]
            · have h2 : bt.1 < (evalFn c).avgTime := not_le.mp hle
              have h3 : bt.1 < b.1 := lt_trans h2 hlt
              simp [mergeBest, h2, hle, h3]
        · rw [show bestOf evalFn (c :: rest) (some b) =
              bestOf evalFn rest (some b) by
            simp [bestOf, hs, hlt]]
          rw [ih]
          have hble : b.1 ≤ (evalFn c).avgTime := not_lt.mp hlt
          cases ht : specBest evalFn rest with
          | none => simp [specBest, hs, ht, mergeBest, hlt]
          | some bt =>
            simp only [specBest, hs, if_pos, ht]
            by_cases hle : (evalFn c).avgTime ≤ bt.1
            · have h4 : ¬bt.1 < b.1 := not_lt.mpr (le_trans hble hle)
              simp [mergeBest, hle, h4, hlt]
            · simp [mergeBest, hle]
    · have hs' : (evalFn c).success = false := by
        cases hsv : (evalFn c).success
        · rfl
        · exact absurd hsv hs
      rw [show bestOf evalFn (c :: rest) best = bestOf evalFn rest best by
        cases best <;> simp [bestOf, hs']]
      rw [ih]
      congr 1
      simp [specBest, hs']

theorem specBestNoneIff (evalFn : Strategy → StrategyTestResult) (l : List Strategy) :
    specBest evalFn l = none ↔ ∀ c ∈ l, (evalFn c).success = false := by
  induction l with
  | nil => simp [specBest]
  | cons c rest ih =>
    by_cases hs : (evalFn c).success = true
    · cases ht : specBest evalFn rest with
      | none =>
        simp only [specBest, hs, if_pos, ht]
        constructor
        · intro h; cases h
        · intro h
          rw [h c (List.mem_cons_self c rest)] at hs
          cases hs
      | some bt =>
        simp only [specBest, hs, if_pos, ht]
        constructor
        · intro h
          by_cases hle : (evalFn c).avgTime ≤ bt.1 <;> simp [hle] at h
        · intro h
          rw [h c (List.mem_cons_self c rest)] at hs
          cases hs
    · have hs' : (evalFn c).success = false := by
        cases hsv : (evalFn c).success
        · rfl
        · exact absurd hsv hs
      simp only [specBest, hs', Bool.false_eq_true, if_false]
      rw [ih]
      constructor
      · intro h c2 hc2
        rcases List.mem_cons.mp hc2 with rfl | h2
        · exact hs'
        · exact h c2 h2
      · intro h c2 hc2
        exact h c2 (List.mem_cons_of_mem c hc2)

theorem specBestSome (evalFn : Strategy → StrategyTestResult) :
    ∀ (l : List Strategy) (t : ℚ) (ps : List String),
      specBest evalFn l = some (t, ps) →
      ∃ pre c post, l = pre ++ c :: post ∧ (evalFn c).success = true ∧
        (evalFn c).avgTime = t ∧ c.params = ps ∧
        (∀ c2 ∈ l, (evalFn c2).success = true → t ≤ (evalFn c2).avgTime) ∧
        (∀ c2 ∈ pre, (evalFn c2).success = true → t < (evalFn c2).avgTime) := by
  intro l
  induction l with
  | nil =>
    intro t ps h
    cases h
  | cons c rest ih =>
    intro t ps h
    by_cases hs : (evalFn c).success = true
    · cases ht : specBest evalFn rest with
      | none =>
        simp only [specBest, hs, if_pos, ht, Option.some.injEq, Prod.mk.injEq] at h
        refine ⟨[], c, rest, rfl, hs, h.1, h.2, ?_, by simp⟩
        intro c2 hc2 hsucc
        rcases List.mem_cons.mp hc2 with rfl | h2
        · rw [h.1]
        · rw [(specBestNoneIff evalFn rest).mp ht c2 h2] at hsucc
          cases hsucc
      | some bt =>
        by_cases hle : (evalFn c).avgTime ≤ bt.1
        · simp only [specBest, hs, if_pos, ht, hle, if_true, Option.some.injEq,
            Prod.mk.injEq] at h
          obtain ⟨bpre, bc, bpost, hbl, hbs, hbt, hbp, hbmin, _⟩ :=
            ih bt.1 bt.2 (by rw [ht])
          refine ⟨[], c, rest, rfl, hs, h.1, h.2, ?_, by simp⟩
          intro c2 hc2 hsucc
          rcases List.mem_cons.mp hc2 with rfl | h2
          · rw [h.1]
          · calc t = (evalFn c).avgTime := h.1.symm
              _ ≤ bt.1 := hle
              _ ≤ (evalFn c2).avgTime := hbmin c2 h2 hsucc
        · simp only [specBest, hs, if_pos, ht, hle, if_false, Option.some.injEq] at h
          obtain ⟨bpre, bc, bpost, hbl, hbs, hbt, hbp, hbmin, hbstrict⟩ :=
            ih t ps (by rw [ht, h])
          have hclt : t < (evalFn c).avgTime := by
            have h1 : bt.1 < (evalFn c).avgTime := not_le.mp hle
            have h2 : bt.1 = t := by rw [h]
            rw [← h2]
            exact h1
          refine ⟨c :: bpre, bc, bpost, by rw [hbl]; simp, hbs, hbt, hbp, ?_, ?_⟩
          · intro c2 hc2 hsucc
            rcases List.mem_cons.mp hc2 with rfl | h2
            · exact le_of_lt hclt
            · exact hbmin c2 h2 hsucc
          · intro c2 hc2 hsucc
            rcases List.mem_cons.mp hc2 with rfl | h2
            · exact hclt
            · exact hbstrict c2 h2 hsucc
    · have hs' : (evalFn c).success = false := by
        cases hsv : (evalFn c).success
        · rfl
        · exact absurd hsv hs
      have h2 : specBest evalFn rest = some (t, ps) := by
        rw [← h]
        simp [specBest, hs']
      obtain ⟨bpre, bc, bpost, hbl, hbs, hbt, hbp, hbmin, hbstrict⟩ := ih t ps h2
      refine ⟨c :: bpre, bc, bpost, by rw [hbl]; simp, hbs, hbt, hbp, ?_, ?_⟩
      · intro c2 hc2 hsucc
        rcases List.mem_cons.mp hc2 with rfl | hm
        · rw [hs'] at hsucc
          cases hsucc
        · exact hbmin c2 hm hsucc
      · intro c2 hc2 hsucc
        rcases List.mem_cons.mp hc2 with rfl | hm
        · rw [hs'] at hsucc
          cases hsucc
        · exact hbstrict c2 hm hsucc

/-- Claim C4: when a rule's strategy fails, the alternative search over
the catalog candidates sharing the technique key and the rule's protocol
returns the successful candidate of minimum average time, ties broken by
catalog order (every earlier successful candidate is strictly slower),
and returns nothing exactly when no candidate succeeds. -/
theorem bestAlternativeSearch (catalog : String → List Strategy)
    (evalFn : Strategy → StrategyTestResult) (testType desyncKey : String)
    (cands : List Strategy) (hc : cands = candidatesFor catalog testType desyncKey) :
    ((∀ c ∈ cands, (evalFn c).success = false) →
        findBestAlternative catalog evalFn testType desyncKey = none) ∧
    (∀ c0 ∈ cands, (evalFn c0).success = true →
      ∃ pre c post, cands = pre ++ c :: post ∧ (evalFn c).success = true ∧
        findBestAlternative catalog evalFn testType desyncKey =
          some (cleanParams c.params, (evalFn c).avgTime) ∧
        (∀ c2 ∈ cands, (evalFn c2).success = true →
            (evalFn c).avgTime ≤ (evalFn c2).avgTime) ∧
        (∀ c2 ∈ pre, (evalFn c2).success = true →
            (evalFn c).avgTime < (evalFn c2).avgTime)) := by
  subst hc
  constructor
  · intro hall
    unfold findBestAlternative
    by_cases he : (candidatesFor catalog testType desyncKey).isEmpty
    · simp [he]
    · simp only [he, Bool.false_eq_true, if_false]
      rw [bestOfEqMergeBest]
      rw [show mergeBest none (specBest evalFn (candidatesFor catalog testType desyncKey)) =
          specBest evalFn (candidatesFor catalog testType desyncKey) from rfl]
      rw [(specBestNoneIff evalFn _).mpr hall]
  · intro c0 hc0 hsucc
    have hne : ¬(candidatesFor catalog testType desyncKey).isEmpty = true := by
      intro h
      rw [List.isEmpty_iff] at h
      rw [h] at hc0
      cases hc0
    cases hsb : specBest evalFn (candidatesFor catalog testType desyncKey) with
    | none =>
      have := (specBestNoneIff evalFn _).mp hsb c0 hc0
      rw [this] at hsucc
      cases hsucc
    | some bt =>
      obtain ⟨pre, c, post, hl, hcs, htime, hps, hmin, hstrict⟩ :=
        specBestSome evalFn _ bt.1 bt.2 (by rw [hsb])
      refine ⟨pre, c, post, hl, hcs, ?_, ?_, ?_⟩
      · unfold findBestAlternative
        simp only [hne, Bool.false_eq_true, if_false]
        rw [bestOfEqMergeBest]
        rw [show mergeBest none (specBest evalFn (candidatesFor catalog testType desyncKey)) =
            specBest evalFn (candidatesFor catalog testType desyncKey) from rfl]
        rw [hsb, hps, htime]
      · intro c2 hc2 hs2
        rw [htime]
        exact hmin c2 hc2 hs2
      · intro c2 hc2 hs2
        rw [htime]
        exact hstrict c2 hc2 hs2

theorem bestAlternativeSearchWitness :
    ∃ pre c post,
      candidatesFor exCatalog "https_tls13" "fake" = pre ++ c :: post ∧
      (exEvalFn c).success = true ∧
      findBestAlternative exCatalog exEvalFn "https_tls13" "fake" =
        some (cleanParams c.params, (exEvalFn c).avgTime) ∧
      (∀ c2 ∈ candidatesFor exCatalog "https_tls13" "fake",
          (exEvalFn c2).success = true →
          (exEvalFn c).avgTime ≤ (exEvalFn c2).avgTime) ∧
      (∀ c2 ∈ pre, (exEvalFn c2).success = true →
          (exEvalFn c).avgTime < (exEvalFn c2).avgTime) :=
  (bestAlternativeSearch exCatalog exEvalFn "https_tls13" "fake" _ rfl).2
    ⟨"https", ["--dpi-desync=fake", "--fake-one"]⟩ (by decide) (by decide)

/-! ## Claim C6: the evaluation cache -/

theorem lookupCacheCons (key : String) (res : OptimizationResult)
    (cache : List (String × OptimizationResult)) (k : String) :
    lookupCache ((key, res) :: cache) k =
      if key = k then some res else lookupCache cache k := by
  unfold lookupCache
  by_cases h : key = k <;> simp [List.find?, h]

theorem optimizeRuleStepFacts (eo : PresetRule → StrategyTestResult)
    (cat : String → List Strategy) (ef : Strategy → StrategyTestResult)
    (cache : List (String × OptimizationResult)) (rule : PresetRule) :
    ((optimizeRule eo cat ef cache rule).2.2 = [] ∨
      (optimizeRule eo cat ef cache rule).2.2 = [rule]) ∧
    (∀ r ∈ (optimizeRule eo cat ef cache rule).2.2,
        lookupCache cache (getCacheKey r) = none) ∧
    (∀ k v, lookupCache cache k = some v →
        lookupCache (optimizeRule eo cat ef cache rule).2.1 k = some v) ∧
    (∀ r ∈ (optimizeRule eo cat ef cache rule).2.2,
        lookupCache (optimizeRule eo cat ef cache rule).2.1 (getCacheKey r) ≠ none) := by
  unfold optimizeRule
  rcases htt : rule.testType with _ | tt
  · simp
  · rcases hdk : rule.desyncKey with _ | dk
    · simp
    · rcases hl : lookupCache cache (getCacheKey rule) with _ | res
      · by_cases hs : (eo rule).success = true
        · simp only [hl, hs, if_pos]
          refine ⟨Or.inr (by trivial), ?_, ?_, ?_⟩
          · intro r hr
            rcases List.mem_singleton.mp hr with rfl
            exact hl
          · intro k v hv
            rw [lookupCacheCons]
            have hne : getCacheKey rule ≠ k := by
              intro h
              rw [h, hv] at hl
              cases hl
            rw [if_neg hne]
            exact hv
          · intro r hr
            rcases List.mem_singleton.mp hr with rfl
            rw [lookupCacheCons, if_pos rfl]
            intro h
            cases h
        · have hs' : (eo rule).success = false := by
            cases hsv : (eo rule).success
            · rfl
            · exact absurd hsv hs
          rcases hfb : findBestAlternative cat ef tt dk with _ | pt
          all_goals
            simp only [hl, hs', Bool.false_eq_true, if_false, hfb]
            refine ⟨Or.inr (by trivial), ?_, ?_, ?_⟩
            · intro r hr
              rcases List.mem_singleton.mp hr with rfl
              exact hl
            · intro k v hv
              rw [lookupCacheCons]
              have hne : getCacheKey rule ≠ k := by
                intro h
                rw [h, hv] at hl
                cases hl
              rw [if_neg hne]
              exact hv
            · intro r hr
              rcases List.mem_singleton.mp hr with rfl
              rw [lookupCacheCons, if_pos rfl]
              intro h
              cases h
      · simp [hl]

theorem optimizeRulesFacts (eo : PresetRule → StrategyTestResult)
    (cat : String → List Strategy) (ef : Strategy → StrategyTestResult) :
    ∀ (rules : List PresetRule) (cache : List (String × OptimizationResult)),
      ((optimizeRules eo cat ef cache rules).2.2.map getCacheKey).Nodup ∧
      (∀ r ∈ (optimizeRules eo cat ef cache rules).2.2,
          lookupCache cache (getCacheKey r) = none) ∧
      (∀ k v, lookupCache cache k = some v →
          lookupCache (optimizeRules eo cat ef cache rules).2.1 k = some v) := by
  intro rules
  induction rules with
  | nil =>
    intro cache
    refine ⟨by simp [optimizeRules], by simp [optimizeRules], ?_⟩
    intro k v hv
    simpa [optimizeRules] using hv
  | cons rule rest ih =>
    intro cache
    obtain ⟨hshape, hfresh, hmono, hin⟩ := optimizeRuleStepFacts eo cat ef cache rule
    obtain ⟨rnodup, rfresh, rmono⟩ := ih (optimizeRule eo cat ef cache rule).2.1
    have htrace : (optimizeRules eo cat ef cache (rule :: rest)).2.2 =
        (optimizeRule eo cat ef cache rule).2.2 ++
          (optimizeRules eo cat ef (optimizeRule eo cat ef cache rule).2.1 rest).2.2 := rfl
    have hcache : (optimizeRules eo cat ef cache (rule :: rest)).2.1 =
        (optimizeRules eo cat ef (optimizeRule eo cat ef cache rule).2.1 rest).2.1 := rfl
    refine ⟨?_, ?_, ?_⟩
    · rw [htrace, List.map_append]
      rw [List.nodup_append]
      rcases hshape with he | hone
      · rw [he]
        simpa using rnodup
      · rw [hone]
        refine ⟨by simp, rnodup, ?_⟩
        intro a ha hb
        rcases List.mem_singleton.mp (by simpa using ha) with rfl
        rcases List.mem_map.mp hb with ⟨r2, hr2, hkey⟩
        have h1 : lookupCache (optimizeRule eo cat ef cache rule).2.1
            (getCacheKey rule) ≠ none :=
          hin rule (by rw [hone]; exact List.mem_singleton_self rule)
        have h2 : lookupCache (optimizeRule eo cat ef cache rule).2.1
            (getCacheKey r2) = none := rfresh r2 hr2
        rw [hkey] at h2
        exact h1 h2
    · intro r hr
      rw [htrace] at hr
      rcases List.mem_append.mp hr with h | h
      · exact hfresh r h
      · cases hlc : lookupCache cache (getCacheKey r) with
        | none => rfl
        | some v =>
          have := hmono _ _ hlc
          rw [rfresh r h] at this
          cases this
    · intro k v hv
      rw [hcache]
      exact rmono k v (hmono k v hv)

/-- Claim C6 (amended): within one run the verdict for a given
evaluation-cache key — test type, technique key and sorted prefix
arguments — is computed at most once (the tested-rule trace carries no
duplicate key), and a rule whose key is already cached gets the cached
verdict back with no further testing. -/
theorem evaluationCacheAtMostOnce (eo : PresetRule → StrategyTestResult)
    (cat : String → List Strategy) (ef : Strategy → StrategyTestResult) :
    (∀ rules : List PresetRule,
        ((optimizeRules eo cat ef [] rules).2.2.map getCacheKey).Nodup) ∧
    (∀ cache rule tt dk res, rule.testType = some tt → rule.desyncKey = some dk →
        lookupCache cache (getCacheKey rule) = some res →
        optimizeRule eo cat ef cache rule = (res, cache, [])) := by
  constructor
  · intro rules
    exact (optimizeRulesFacts eo cat ef rules []).1
  · intro cache rule tt dk res h1 h2 hc
    unfold optimizeRule
    rw [h1, h2]
    simp [hc]

theorem evaluationCacheWitness :
    optimizeRule exFailEval exEmptyCatalog exNoEval
        [(getCacheKey exRuleA, exCachedRes)] exRuleA =
      (exCachedRes, [(getCacheKey exRuleA, exCachedRes)], []) :=
  (evaluationCacheAtMostOnce exFailEval exEmptyCatalog exNoEval).2
    [(getCacheKey exRuleA, exCachedRes)] exRuleA "https_tls13" "fake" exCachedRes
    rfl rfl (by rw [lookupCacheCons, if_pos rfl])

/-- Claim C6 counterexample: two rules carrying the same protocol and
technique key but different prefix arguments get different cache keys, so
both are tested — the second is not served from the cache. -/
theorem evaluationCacheCounterexample :
    (optimizeRules exFailEval exEmptyCatalog exNoEval [] [exRuleA, exRuleB]).2.2 =
      [exRuleA, exRuleB] ∧
    exRuleA.testType = exRuleB.testType ∧
    exRuleA.desyncKey = exRuleB.desyncKey ∧
    exRuleA ≠ exRuleB := by
  refine ⟨?_, rfl, rfl, by decide⟩
  rfl

/-! ## Claim C9: round-trip of build and parse -/

theorem isPrefixOfAppendLe (p : List Char) :
    ∀ (a b : List Char), p.length ≤ a.length →
      p.isPrefixOf (a ++ b) = p.isPrefixOf a := by
  induction p with
  | nil =>
    intro a b _
    simp [List.isPrefixOf]
  | cons x ps ih =>
    intro a b h
    cases a with
    | nil => simp at h
    | cons y ys =>
      simp only [List.cons_append, List.isPrefixOf, List.append_eq]
      rw [ih ys b (by simpa using h)]

theorem isPrefixOfNeAll (x : Char) :
    ∀ (q k : List Char), x ∉ q → x ∉ k → ∀ (v w : List Char),
      q.isPrefixOf (k ++ x :: v) = q.isPrefixOf (k ++ x :: w) := by
  intro q
  induction q with
  | nil =>
    intro k _ _ v w
    simp [List.isPrefixOf]
  | cons a qs ih =>
    intro k hq hk v w
    cases k with
    | nil =>
      have hax : (a == x) = false := by
        have : a ≠ x := fun h => hq (h ▸ List.mem_cons_self a qs)
        simpa using this
      simp [List.isPrefixOf, hax]
    | cons c ks =>
      simp only [List.cons_append, List.isPrefixOf, List.append_eq]
      rw [ih ks (fun h => hq (List.mem_cons_of_mem a h))
        (fun h => hk (List.mem_cons_of_mem c h)) v w]

theorem isPrefixOfEqMark (x : Char) :
    ∀ (q k : List Char), x ∉ q → x ∉ k → ∀ (s : List Char),
      ((q ++ [x]).isPrefixOf (k ++ x :: s) = true ↔ q = k) := by
  intro q
  induction q with
  | nil =>
    intro k _ hk s
    cases k with
    | nil => simp [List.isPrefixOf]
    | cons c ks =>
      have hxc : (x == c) = false := by
        have : x ≠ c := fun h => hk (h ▸ List.mem_cons_self c ks)
        simpa using this
      simp [List.isPrefixOf, hxc]
  | cons a qs ih =>
    intro k hq hk s
    cases k with
    | nil =>
      have hax : (a == x) = false := by
        have : a ≠ x := fun h => hq (h ▸ List.mem_cons_self a qs)
        simpa using this
      simp [List.isPrefixOf, hax]
    | cons c ks =>
      simp only [List.cons_append, List.isPrefixOf, Bool.and_eq_true, beq_iff_eq,
        List.append_eq]
      rw [ih ks (fun h => hq (List.mem_cons_of_mem a h))
        (fun h => hk (List.mem_cons_of_mem c h)) s]
      rw [List.cons.injEq]

theorem memOfSubListSingleton (x : Char) :
    ∀ (l : List Char), subList [x] l = true → x ∈ l := by
  intro l
  induction l with
  | nil =>
    intro h
    simp [subList, List.isEmpty] at h
  | cons c t ih =>
    intro h
    rw [subList] at h
    rcases (Bool.or_eq_true _ _).mp h with h1 | h2
    · have hxc : x = c := by simpa [List.isPrefixOf] using h1
      exact hxc ▸ List.mem_cons_self x t
    · exact List.mem_cons_of_mem c (ih h2)

theorem dropWhileNeCons (x : Char) :
    ∀ (l : List Char), x ∈ l → ∃ r, l.dropWhile (· ≠ x) = x :: r := by
  intro l
  induction l with
  | nil =>
    intro h
    cases h
  | cons c t ih =>
    intro h
    by_cases hc : c = x
    · subst hc
      exact ⟨t, by simp [List.dropWhile]⟩
    · have hx : x ∈ t := by
        rcases List.mem_cons.mp h with h1 | h1
        · exact absurd h1.symm hc
        · exact h1
      obtain ⟨r, hr⟩ := ih hx
      refine ⟨r, ?_⟩
      rw [List.dropWhile_cons, if_pos (by simpa using hc)]
      exact hr

theorem startsWithPyAppendOfLe (a b pre : String) (h : pre.length ≤ a.length) :
    startsWithPy (a ++ b) pre = startsWithPy a pre := by
  unfold startsWithPy
  rw [dataAppend]
  exact isPrefixOfAppendLe pre.data a.data b.data h

theorem startsWithPyAppendSelf (pre s : String) : startsWithPy (pre ++ s) pre = true := by
  unfold startsWithPy
  rw [dataAppend]
  exact List.isPrefixOf_iff_prefix.mpr (List.prefix_append _ _)

theorem eqSplit (p : String) (h : strContains p "=" = true) :
    ∃ k v : List Char, p.data = k ++ '=' :: v ∧ '=' ∉ k ∧
      (beforeCharPy '=' p).data = k ∧ (afterCharPy '=' p).data = v := by
  have hmem : '=' ∈ p.data := by
    refine memOfSubListSingleton '=' p.data ?_
    have h2 : subList ("=" : String).data p.data = true := h
    simpa using h2
  obtain ⟨r, hr⟩ := dropWhileNeCons '=' p.data hmem
  refine ⟨p.data.takeWhile (· ≠ '='), r, ?_, ?_, rfl, ?_⟩
  · conv_lhs => rw [← List.takeWhile_append_dropWhile (fun c => decide (c ≠ '=')) p.data]
    rw [hr]
  · intro hmemk
    have := List.mem_takeWhile_imp hmemk
    simp at this
  · show (p.data.dropWhile (· ≠ '=')).drop 1 = r
    rw [hr]
    rfl

theorem resolveParamData (baseDir p : String)
    (hg : (strContains p "%~dp0" && strContains p "=") = true) :
    ∃ k v w : List Char, p.data = k ++ '=' :: v ∧ '=' ∉ k ∧
      (resolveParam baseDir p).data = k ++ '=' :: w := by
  have h2 : strContains p "=" = true := (Bool.and_eq_true _ _).mp hg |>.2
  obtain ⟨k, v, hdata, hknot, hbefore, _⟩ := eqSplit p h2
  have hres : resolveParam baseDir p =
      (let value := afterCharPy '=' p
       let fullPath := baseDir ++ "\\" ++ ((stripCharPy '"' value).replace "%~dp0" "")
       if strContains fullPath " " then
         beforeCharPy '=' p ++ "=\"" ++ fullPath ++ "\""
       else beforeCharPy '=' p ++ "=" ++ fullPath) := by
    unfold resolveParam
    rw [hg]
    rfl
  rw [hres]
  by_cases hsp : strContains
      (baseDir ++ "\\" ++ ((stripCharPy '"' (afterCharPy '=' p)).replace "%~dp0" "")) " " = true
  · refine ⟨k, v, '"' ::
      ((baseDir ++ "\\" ++ ((stripCharPy '"' (afterCharPy '=' p)).replace "%~dp0" "")).data
        ++ ("\"" : String).data), hdata, hknot, ?_⟩
    simp only [hsp, if_true]
    rw [dataAppend, dataAppend, dataAppend, hbefore]
    simp [List.append_assoc]
  · have hsp2 : strContains
        (baseDir ++ "\\" ++ ((stripCharPy '"' (afterCharPy '=' p)).replace "%~dp0" "")) " " =
        false := by
      cases hv : strContains
          (baseDir ++ "\\" ++ ((stripCharPy '"' (afterCharPy '=' p)).replace "%~dp0" "")) " "
      · rfl
      · exact absurd hv hsp
    refine ⟨k, v,
      (baseDir ++ "\\" ++ ((stripCharPy '"' (afterCharPy '=' p)).replace "%~dp0" "")).data,
      hdata, hknot, ?_⟩
    simp only [hsp2, Bool.false_eq_true, if_false]
    rw [dataAppend, dataAppend, hbefore]
    simp [List.append_assoc]

theorem resolveParamGuardFalse (baseDir p : String)
    (hg : ¬(strContains p "%~dp0" && strContains p "=") = true) :
    resolveParam baseDir p = p := by
  unfold resolveParam
  rw [if_neg hg]

theorem resolveParamId (baseDir p : String) (h : strContains p "%~dp0" = false) :
    resolveParam baseDir p = p := by
  refine resolveParamGuardFalse baseDir p ?_
  rw [h]
  simp

theorem resolveParamStartsWithFree (baseDir p pre : String) (hpre : '=' ∉ pre.data) :
    startsWithPy (resolveParam baseDir p) pre = startsWithPy p pre := by
  by_cases hg : (strContains p "%~dp0" && strContains p "=") = true
  · obtain ⟨k, v, w, hp, hk, hr⟩ := resolveParamData baseDir p hg
    unfold startsWithPy
    rw [hp, hr]
    exact isPrefixOfNeAll '=' pre.data k hpre hk w v
  · rw [resolveParamGuardFalse baseDir p hg]

theorem resolveParamStartsWithMark (baseDir p q : String) (hq : '=' ∉ q.data) :
    startsWithPy (resolveParam baseDir p) (q ++ "=") = startsWithPy p (q ++ "=") := by
  by_cases hg : (strContains p "%~dp0" && strContains p "=") = true
  · obtain ⟨k, v, w, hp, hk, hr⟩ := resolveParamData baseDir p hg
    unfold startsWithPy
    rw [dataAppend, hp, hr]
    have hqe : ("=" : String).data = ['='] := rfl
    rw [hqe]
    have h1 := isPrefixOfEqMark '=' q.data k hq hk w
    have h2 := isPrefixOfEqMark '=' q.data k hq hk v
    cases hb1 : (q.data ++ ['=']).isPrefixOf (k ++ '=' :: w) with
    | false =>
      cases hb2 : (q.data ++ ['=']).isPrefixOf (k ++ '=' :: v) with
      | false => rfl
      | true =>
        rw [hb2] at h2
        rw [hb1] at h1
        have := h1.mpr (h2.mp rfl)
        cases this
    | true =>
      rw [hb1] at h1
      rw [h2.mpr (h1.mp rfl)]
  · rw [resolveParamGuardFalse baseDir p hg]

theorem resolveParamNeNew (baseDir p : String) (hp : p ≠ "--new") :
    resolveParam baseDir p ≠ "--new" := by
  by_cases hg : (strContains p "%~dp0" && strContains p "=") = true
  · obtain ⟨k, v, w, hpd, hk, hr⟩ := resolveParamData baseDir p hg
    intro h
    have hmem : '=' ∈ (resolveParam baseDir p).data := by
      rw [hr]
      exact List.mem_append_right k (List.mem_cons_self '=' w)
    rw [h] at hmem
    exact absurd hmem (by decide)
  · rw [resolveParamGuardFalse baseDir p hg]
    exact hp

theorem stringMkData (s : String) : String.mk s.data = s := by
  cases s
  rfl

theorem startsWithPyFalseMono (s pat short : String)
    (hps : short.data.isPrefixOf pat.data = true)
    (hfalse : startsWithPy s short = false) : startsWithPy s pat = false := by
  cases hv : startsWithPy s pat
  · rfl
  · exfalso
    have h1 : pat.data <+: s.data := List.isPrefixOf_iff_prefix.mp hv
    have h2 : short.data <+: pat.data := List.isPrefixOf_iff_prefix.mp hps
    have h3 : startsWithPy s short = true :=
      List.isPrefixOf_iff_prefix.mpr (h2.trans h1)
    rw [h3] at hfalse
    cases hfalse

theorem takeWhileNeAppend (x : Char) :
    ∀ (k : List Char), x ∉ k → ∀ s, (k ++ x :: s).takeWhile (· ≠ x) = k := by
  intro k
  induction k with
  | nil =>
    intro _ s
    simp [List.takeWhile]
  | cons c ks ih =>
    intro hm s
    have hcx : c ≠ x := fun h => hm (h ▸ List.mem_cons_self c ks)
    rw [List.cons_append, List.takeWhile_cons, if_pos (by simpa using hcx)]
    rw [ih (fun h => hm (List.mem_cons_of_mem c h)) s]

theorem dropWhileNeAppend (x : Char) :
    ∀ (k : List Char), x ∉ k → ∀ s, (k ++ x :: s).dropWhile (· ≠ x) = x :: s := by
  intro k
  induction k with
  | nil =>
    intro _ s
    simp [List.dropWhile]
  | cons c ks ih =>
    intro hm s
    have hcx : c ≠ x := fun h => hm (h ▸ List.mem_cons_self c ks)
    rw [List.cons_append, List.dropWhile_cons, if_pos (by simpa using hcx)]
    exact ih (fun h => hm (List.mem_cons_of_mem c h)) s

theorem afterCharPyAppend (key : String) :
    afterCharPy '=' ("--dpi-desync=" ++ key) = key := by
  unfold afterCharPy
  have hd : ("--dpi-desync=" ++ key).data =
      ("--dpi-desync" : String).data ++ '=' :: key.data := by
    rw [dataAppend]
    have h1 : ("--dpi-desync=" : String).data =
        ("--dpi-desync" : String).data ++ ['='] := by decide
    rw [h1, List.append_assoc]
    rfl
  rw [hd, dropWhileNeAppend '=' _ (by decide) key.data]
  exact stringMkData key

theorem updateMetaArgs (r : PresetRule) (q : String) :
    (updateMeta r q).prefixArgs = r.prefixArgs ∧
    (updateMeta r q).strategyArgs = r.strategyArgs := by
  unfold updateMeta
  constructor <;> (split_ifs <;> rfl)

theorem updateMetaTestType (r : PresetRule) (q : String) (h : isFilterArg q = false) :
    (updateMeta r q).testType = r.testType := by
  have hf : startsWithPy q "--filter-" = false ∧ startsWithPy q "--wf-" = false := by
    unfold isFilterArg at h
    constructor
    · cases hv : startsWithPy q "--filter-"
      · rfl
      · rw [hv] at h
        cases h
    · cases hv : startsWithPy q "--wf-"
      · rfl
      · rw [hv] at h
        simp at h
  have h1 := startsWithPyFalseMono q "--filter-tcp=80" "--filter-" (by decide) hf.1
  have h2 := startsWithPyFalseMono q "--wf-tcp=80" "--wf-" (by decide) hf.2
  have h3 := startsWithPyFalseMono q "--filter-tcp=443" "--filter-" (by decide) hf.1
  have h4 := startsWithPyFalseMono q "--wf-tcp=443" "--wf-" (by decide) hf.2
  have h5 := startsWithPyFalseMono q "--filter-udp=443" "--filter-" (by decide) hf.1
  have h6 := startsWithPyFalseMono q "--wf-udp=443" "--wf-" (by decide) hf.2
  have h7 := startsWithPyFalseMono q "--filter-l7=quic" "--filter-" (by decide) hf.1
  unfold updateMeta
  simp only [h1, h2, h3, h4, h5, h6, h7, Bool.or_self, Bool.false_eq_true, if_false]
  split <;> rfl

theorem updateMetaDesyncNone (r : PresetRule) (q : String)
    (h : startsWithPy q "--dpi-desync=" = false) :
    (updateMeta r q).desyncKey = r.desyncKey := by
  unfold updateMeta
  simp only [h, Bool.false_eq_true, if_false]
  split_ifs <;> rfl

theorem updateMetaDesyncSet (r : PresetRule) (key : String) :
    (updateMeta r ("--dpi-desync=" ++ key)).desyncKey = some key := by
  unfold updateMeta
  have hsw : startsWithPy ("--dpi-desync=" ++ key) "--dpi-desync=" = true :=
    startsWithPyAppendSelf _ _
  simp only [hsw, if_true]
  rw [afterCharPyAppend key]

theorem addTokenTestType (r : PresetRule) (q : String) (h : isFilterArg q = false) :
    (addToken r q).testType = r.testType := by
  unfold addToken
  split_ifs <;> exact updateMetaTestType _ q h

theorem addTokenDesyncNone (r : PresetRule) (q : String)
    (h : startsWithPy q "--dpi-desync=" = false) :
    (addToken r q).desyncKey = r.desyncKey := by
  unfold addToken
  split_ifs <;> exact updateMetaDesyncNone _ q h

theorem addTokenDesyncSet (r : PresetRule) (key : String) :
    (addToken r ("--dpi-desync=" ++ key)).desyncKey = some key := by
  unfold addToken
  split_ifs <;> exact updateMetaDesyncSet _ key

theorem addTokenNonEmpty (r : PresetRule) (q : String) :
    ruleNonEmpty (addToken r q) = true := by
  unfold addToken ruleNonEmpty
  have ha := updateMetaArgs { r with prefixArgs := r.prefixArgs ++ [q] } q
  have hb := updateMetaArgs { r with strategyArgs := r.strategyArgs ++ [q] } q
  split_ifs
  · rw [ha.1]
    simp
  · rw [hb.1, hb.2]
    simp

theorem foldRulesNoNew :
    ∀ (ps : List String) (cur : PresetRule), (∀ q ∈ ps, q ≠ "--new") →
      ruleNonEmpty cur = true → foldRules ps cur = [ps.foldl addToken cur] := by
  intro ps
  induction ps with
  | nil =>
    intro cur _ hne
    simp [foldRules, hne]
  | cons q rest ih =>
    intro cur hq hne
    have hqn : q ≠ "--new" := hq q (List.mem_cons_self q rest)
    rw [show foldRules (q :: rest) cur = foldRules rest (addToken cur q) by
      simp [foldRules, hqn]]
    rw [ih (addToken cur q) (fun x hx => hq x (List.mem_cons_of_mem q hx))
      (addTokenNonEmpty cur q)]
    rfl

theorem foldlAddTokenTestType :
    ∀ (ps : List String) (cur : PresetRule), (∀ q ∈ ps, isFilterArg q = false) →
      (ps.foldl addToken cur).testType = cur.testType := by
  intro ps
  induction ps with
  | nil =>
    intro cur _
    rfl
  | cons q rest ih =>
    intro cur h
    rw [List.foldl_cons,
      ih (addToken cur q) (fun x hx => h x (List.mem_cons_of_mem q hx)),
      addTokenTestType cur q (h q (List.mem_cons_self q rest))]

theorem foldlAddTokenDesyncPreserve :
    ∀ (ps : List String) (cur : PresetRule),
      (∀ q ∈ ps, startsWithPy q "--dpi-desync=" = false) →
      (ps.foldl addToken cur).desyncKey = cur.desyncKey := by
  intro ps
  induction ps with
  | nil =>
    intro cur _
    rfl
  | cons q rest ih =>
    intro cur h
    rw [List.foldl_cons,
      ih (addToken cur q) (fun x hx => h x (List.mem_cons_of_mem q hx)),
      addTokenDesyncNone cur q (h q (List.mem_cons_self q rest))]

theorem foldlAddTokenDesyncFinal :
    ∀ (ps : List String) (cur : PresetRule) (key : String),
      ("--dpi-desync=" ++ key) ∈ ps →
      (∀ q ∈ ps, startsWithPy q "--dpi-desync=" = true → q = "--dpi-desync=" ++ key) →
      (ps.foldl addToken cur).desyncKey = some key := by
  intro ps
  induction ps with
  | nil =>
    intro cur key hex
    cases hex
  | cons q rest ih =>
    intro cur key hex hall
    rw [List.foldl_cons]
    by_cases hqr : ("--dpi-desync=" ++ key) ∈ rest
    · exact ih (addToken cur q) key hqr
        (fun x hx => hall x (List.mem_cons_of_mem q hx))
    · have hq : q = "--dpi-desync=" ++ key := by
        rcases List.mem_cons.mp hex with h | h
        · exact h.symm
        · exact absurd h hqr
      subst hq
      have hrest : ∀ x ∈ rest, startsWithPy x "--dpi-desync=" = false := by
        intro x hx
        cases hv : startsWithPy x "--dpi-desync="
        · rfl
        · have := hall x (List.mem_cons_of_mem _ hx) hv
          rw [this] at hx
          exact absurd hx hqr
      rw [foldlAddTokenDesyncPreserve rest _ hrest]
      exact addTokenDesyncSet cur key

theorem roundTripCore (f2 tk J : String) (qs : List String) (key : String)
    (hf2new : f2 ≠ "--new")
    (hmetaT : (addToken (addToken {} "--wf-l3=ipv4") f2).testType = some tk)
    (hq1 : ∀ q ∈ qs, q ≠ "--new")
    (hq2 : ∀ q ∈ qs, isFilterArg q = false)
    (hq3 : ∀ q ∈ qs, startsWithPy q "--dpi-desync=" = true → q = "--dpi-desync=" ++ key)
    (hq4 : ("--dpi-desync=" ++ key) ∈ qs) :
    ∃ rule : PresetRule,
      parseArgumentsStructure
          ("--wf-l3=ipv4" :: f2 :: ("--hostlist-domains=" ++ J) :: qs) = ([], [rule]) ∧
      rule.testType = some tk ∧ rule.desyncKey = some key := by
  have hhnew : ("--hostlist-domains=" ++ J) ≠ "--new" := by
    intro h
    have hmem : '=' ∈ ("--hostlist-domains=" ++ J).data := by
      rw [dataAppend]
      refine List.mem_append_left _ ?_
      decide
    rw [h] at hmem
    exact absurd hmem (by decide)
  have hhfilter : isFilterArg ("--hostlist-domains=" ++ J) = false := by
    unfold isFilterArg
    rw [startsWithPyAppendOfLe _ _ "--filter-" (by decide),
      startsWithPyAppendOfLe _ _ "--wf-" (by decide)]
    decide
  have hhdesync : startsWithPy ("--hostlist-domains=" ++ J) "--dpi-desync=" = false := by
    rw [startsWithPyAppendOfLe _ _ "--dpi-desync=" (by decide)]
    decide
  have hsplit : splitAtFirstFilter
      ("--wf-l3=ipv4" :: f2 :: ("--hostlist-domains=" ++ J) :: qs) =
      ([], "--wf-l3=ipv4" :: f2 :: ("--hostlist-domains=" ++ J) :: qs) := by
    unfold splitAtFirstFilter
    rw [if_pos (by decide)]
  refine ⟨qs.foldl addToken
    (addToken (addToken (addToken {} "--wf-l3=ipv4") f2) ("--hostlist-domains=" ++ J)),
    ?_, ?_, ?_⟩
  · unfold parseArgumentsStructure
    rw [hsplit]
    have hstep : foldRules ("--wf-l3=ipv4" :: f2 :: ("--hostlist-domains=" ++ J) :: qs) {} =
        foldRules qs
          (addToken (addToken (addToken {} "--wf-l3=ipv4") f2)
            ("--hostlist-domains=" ++ J)) := by
      rw [show foldRules ("--wf-l3=ipv4" :: f2 :: ("--hostlist-domains=" ++ J) :: qs) {} =
          foldRules (f2 :: ("--hostlist-domains=" ++ J) :: qs) (addToken {} "--wf-l3=ipv4") by
        simp [foldRules]]
      rw [show foldRules (f2 :: ("--hostlist-domains=" ++ J) :: qs) (addToken {} "--wf-l3=ipv4") =
          foldRules (("--hostlist-domains=" ++ J) :: qs)
            (addToken (addToken {} "--wf-l3=ipv4") f2) by
        simp [foldRules, hf2new]]
      simp [foldRules, hhnew]
    show (([] : List String),
      foldRules ("--wf-l3=ipv4" :: f2 :: ("--hostlist-domains=" ++ J) :: qs)
        ({} : PresetRule)) = _
    rw [hstep, foldRulesNoNew qs _ hq1 (addTokenNonEmpty _ _)]
  · rw [foldlAddTokenTestType qs _ hq2,
      addTokenTestType _ _ hhfilter]
    exact hmetaT
  · exact foldlAddTokenDesyncFinal qs _ key hq4 hq3

/-- Claim C9 (amended): for a Strategy of one of the three protocols
whose parameters contain the token `--dpi-desync=<key>` and no other
`--dpi-desync=` token, no `--filter-`/`--wf-` token, no `--new` token,
and whose desync token is free of `%~dp0`, building the engine command
for a non-empty target list and re-parsing it yields a single rule whose
test type maps back to the Strategy's protocol and whose technique key is
`<key>`. -/
theorem roundTripProtocolKey (baseDir : String) (strat : Strategy)
    (domains : List String) (key : String)
    (hproto : strat.protocol = "http" ∨ strat.protocol = "https" ∨
      strat.protocol = "http3")
    (hdom : domains ≠ [])
    (hkey : ("--dpi-desync=" ++ key) ∈ strat.params)
    (huniq : ∀ p ∈ strat.params, startsWithPy p "--dpi-desync=" = true →
        p = "--dpi-desync=" ++ key)
    (hnof : ∀ p ∈ strat.params, isFilterArg p = false)
    (hnew : ∀ p ∈ strat.params, p ≠ "--new")
    (hdp0 : strContains ("--dpi-desync=" ++ key) "%~dp0" = false) :
    ∃ rule : PresetRule,
      parseArgumentsStructure (buildCommand baseDir strat domains none) = ([], [rule]) ∧
      rule.testType.map testKeyToProtocol = some strat.protocol ∧
      rule.desyncKey = some key := by
  have hq1 : ∀ q ∈ strat.params.map (resolveParam baseDir), q ≠ "--new" := by
    intro q hq
    rcases List.mem_map.mp hq with ⟨p, hp, rfl⟩
    exact resolveParamNeNew baseDir p (hnew p hp)
  have hq2 : ∀ q ∈ strat.params.map (resolveParam baseDir), isFilterArg q = false := by
    intro q hq
    rcases List.mem_map.mp hq with ⟨p, hp, rfl⟩
    unfold isFilterArg
    rw [resolveParamStartsWithFree baseDir p "--filter-" (by decide),
      resolveParamStartsWithFree baseDir p "--wf-" (by decide)]
    have := hnof p hp
    unfold isFilterArg at this
    exact this
  have hq3 : ∀ q ∈ strat.params.map (resolveParam baseDir),
      startsWithPy q "--dpi-desync=" = true → q = "--dpi-desync=" ++ key := by
    intro q hq hsw
    rcases List.mem_map.mp hq with ⟨p, hp, rfl⟩
    have hmark := resolveParamStartsWithMark baseDir p "--dpi-desync" (by decide)
    have hcat : ("--dpi-desync" : String) ++ "=" = "--dpi-desync=" := by decide
    rw [hcat] at hmark
    rw [hmark] at hsw
    have hpp := huniq p hp hsw
    rw [hpp, resolveParamId baseDir _ hdp0]
  have hq4 : ("--dpi-desync=" ++ key) ∈ strat.params.map (resolveParam baseDir) :=
    List.mem_map.mpr ⟨"--dpi-desync=" ++ key, hkey, resolveParamId baseDir _ hdp0⟩
  rcases hproto with hp | hp | hp
  · have hb : buildCommand baseDir strat domains none =
        "--wf-l3=ipv4" :: "--wf-tcp=80" ::
          ("--hostlist-domains=" ++ joinWithPy "," (uniqueDomains domains)) ::
          strat.params.map (resolveParam baseDir) := by
      unfold buildCommand PROTOCOL_FILTERS
      rw [hp]
      simp
    rw [hb]
    obtain ⟨rule, hparse, htt, hdk⟩ := roundTripCore "--wf-tcp=80" "http"
      (joinWithPy "," (uniqueDomains domains)) (strat.params.map (resolveParam baseDir))
      key (by decide) (by decide) hq1 hq2 hq3 hq4
    refine ⟨rule, hparse, ?_, hdk⟩
    rw [htt, hp]
    decide
  · have hb : buildCommand baseDir strat domains none =
        "--wf-l3=ipv4" :: "--wf-tcp=443" ::
          ("--hostlist-domains=" ++ joinWithPy "," (uniqueDomains domains)) ::
          strat.params.map (resolveParam baseDir) := by
      unfold buildCommand PROTOCOL_FILTERS
      rw [hp]
      simp
    rw [hb]
    obtain ⟨rule, hparse, htt, hdk⟩ := roundTripCore "--wf-tcp=443" "https_tls13"
      (joinWithPy "," (uniqueDomains domains)) (strat.params.map (resolveParam baseDir))
      key (by decide) (by decide) hq1 hq2 hq3 hq4
    refine ⟨rule, hparse, ?_, hdk⟩
    rw [htt, hp]
    decide
  · have hb : buildCommand baseDir strat domains none =
        "--wf-l3=ipv4" :: "--wf-udp=443" ::
          ("--hostlist-domains=" ++ joinWithPy "," (uniqueDomains domains)) ::
          strat.params.map (resolveParam baseDir) := by
      unfold buildCommand PROTOCOL_FILTERS
      rw [hp]
      simp
    rw [hb]
    obtain ⟨rule, hparse, htt, hdk⟩ := roundTripCore "--wf-udp=443" "http3"
      (joinWithPy "," (uniqueDomains domains)) (strat.params.map (resolveParam baseDir))
      key (by decide) (by decide) hq1 hq2 hq3 hq4
    refine ⟨rule, hparse, ?_, hdk⟩
    rw [htt, hp]
    decide

/-- Claim C9 counterexample: an https strategy whose parameters contain a
`--wf-udp=443` token round-trips to test type `http3`, not `https` — the
unrestricted round-trip claim fails. -/
theorem roundTripCounterexample :
    exStrategyBad.protocol = "https" ∧
    ("--dpi-desync=" ++ "fake") ∈ exStrategyBad.params ∧
    ((parseArgumentsStructure
        (buildCommand "C:\\zapret" exStrategyBad ["a.com"] none)).2.map
          fun r => r.testType.map testKeyToProtocol) = [some "http3"] ∧
    (some "http3" : Option String) ≠ some "https" := by
  refine ⟨rfl, by decide, ?_, by decide⟩
  decide

theorem roundTripWitness :
    ∃ rule : PresetRule,
      parseArgumentsStructure
          (buildCommand "C:\\zapret" exStrategyGood ["a.com", "b.com"] none) =
        ([], [rule]) ∧
      rule.testType.map testKeyToProtocol = some exStrategyGood.protocol ∧
      rule.desyncKey = some "fake" :=
  roundTripProtocolKey "C:\\zapret" exStrategyGood ["a.com", "b.com"] "fake"
    (Or.inr (Or.inl rfl)) (by decide) (by decide) (by decide) (by decide) (by decide)
    (by decide)
